import Mathlib

/-!
# Invertify: pixel inversion and the zoom/pan viewer

A shallow embedding of `src/src/App.jsx`.

* The pixel transform is the `for` loop of `invertImage` over the
  `Uint8ClampedArray` returned by `getImageData`.  The buffer is an `Array Nat`;
  a store converts its value with `toUint8Clamp`, a store outside the buffer
  is dropped, as typed arrays do.
* The viewer is the group of React state cells `zoomModal`, `zoomLevel`,
  `panOffset`, `isDragging`, `dragStart`, `initialPinchDistance` and
  `initialZoomLevel`, together with the event handlers that write them.  Every
  handler is one function on `ViewerState`: it reads the values of the render
  in which it was created (the current state) and returns the state after all
  of its `set...` calls have been applied.
* The `transform` style of the zoomed image is the list of its two CSS
  transform functions, with the CSS rule for applying such a list to a point.
* `handleFileSelect` is embedded up to the start of the image load, and the
  file name of `handleDownload` as a function of `selectedFile.name`.

JavaScript numbers are modelled by the elements of a linearly ordered field
(`ℚ` when a state is evaluated, `ℝ` for the Euclidean distance), so arithmetic
is exact: rounding, infinities and NaN are outside the model.  `Math.sqrt` is a
parameter `sqrt` of the two touch handlers.

The statements about the numbers stored by the zoom buttons are made over a
second embedding of `handleZoomIn` and `handleZoomOut`, in namespace
`Binary64`: there the product and the quotient are rounded to IEEE 754
binary64, and the handler's render is kept apart from the queued state.
-/

namespace Invertify

/-! ## Pixel transform -/

/-- Conversion applied by a `Uint8ClampedArray` when an integer is stored. -/
def toUint8Clamp (v : Int) : Nat :=
  if v ≤ 0 then 0 else if 255 ≤ v then 255 else v.toNat

/-- The loop `for (let i = 0; i < data.length; i += 4)` of `invertImage`, entered
with loop counter `i`.  The three stores write red, green and blue; index
`i + 3` (alpha) is never written.  A read outside the buffer (`undefined` in
the source, 0 here) only feeds the store at the same index, which is dropped. -/
def invertLoop (data : Array Nat) (i : Nat) : Array Nat :=
  if i < data.size then
    let data1 := data.setD i (toUint8Clamp (255 - (data.getD i 0 : Int)))
    let data2 := data1.setD (i + 1) (toUint8Clamp (255 - (data1.getD (i + 1) 0 : Int)))
    let data3 := data2.setD (i + 2) (toUint8Clamp (255 - (data2.getD (i + 2) 0 : Int)))
    invertLoop data3 (i + 4)
  else data
termination_by data.size - i
decreasing_by simp only [Array.size_setD]; omega

/-- The inversion loop of `invertImage`, started at `i = 0`. -/
def invertPixels (data : Array Nat) : Array Nat := invertLoop data 0

/-! ## Viewer state -/

/-- An `{ x, y }` object: `panOffset`, `dragStart`, and the `clientX`/`clientY`
pair of a mouse event or of one touch. -/
structure Point (α : Type) where
  x : α
  y : α
deriving DecidableEq, Repr

/-- The `useState` cells of `App` that belong to the zoom modal. -/
structure ViewerState (α : Type) where
  isOpen : Bool
  imageSrc : String
  title : String
  zoomLevel : α
  panOffset : Point α
  isDragging : Bool
  dragStart : Point α
  initialPinchDistance : α
  initialZoomLevel : α
deriving DecidableEq, Repr

section Viewer

variable {α : Type} [LinearOrderedField α]

/-- The initial values passed to `useState` (lines 10 to 16). -/
def initialState : ViewerState α :=
  { isOpen := false, imageSrc := "", title := "", zoomLevel := 1, panOffset := ⟨0, 0⟩,
    isDragging := false, dragStart := ⟨0, 0⟩, initialPinchDistance := 0,
    initialZoomLevel := 1 }

def openZoom (s : ViewerState α) (imageSrc title : String) : ViewerState α :=
  { s with isOpen := true, imageSrc := imageSrc, title := title, zoomLevel := 1,
           panOffset := ⟨0, 0⟩ }

def closeZoom (s : ViewerState α) : ViewerState α :=
  { s with isOpen := false, imageSrc := "", title := "", zoomLevel := 1,
           panOffset := ⟨0, 0⟩, isDragging := false }

/-- Exact arithmetic; `Binary64.handleZoomIn` rounds the product. -/
def handleZoomIn (s : ViewerState α) : ViewerState α :=
  { s with zoomLevel := min (s.zoomLevel * 1.5) 5 }

/-- The test `zoomLevel <= 1` reads the level of the current render, that is the
level before the update of `setZoomLevel` is applied.  Exact arithmetic, and a
render after every event; `Binary64.handleZoomOut` rounds the quotient and takes
the render and the queued state apart. -/
def handleZoomOut (s : ViewerState α) : ViewerState α :=
  { s with zoomLevel := max (s.zoomLevel / 1.5) 0.5,
           panOffset := if s.zoomLevel ≤ 1 then ⟨0, 0⟩ else s.panOffset }

def resetZoom (s : ViewerState α) : ViewerState α :=
  { s with zoomLevel := 1, panOffset := ⟨0, 0⟩ }

def handleMouseDown (s : ViewerState α) (client : Point α) : ViewerState α :=
  if s.zoomLevel > 1 then
    { s with isDragging := true,
             dragStart := ⟨client.x - s.panOffset.x, client.y - s.panOffset.y⟩ }
  else s

/-- The expression `Math.sqrt(Math.pow(x1 - x0, 2) + Math.pow(y1 - y0, 2))` of the two
touch handlers. -/
def touchDistance (sqrt : α → α) (t0 t1 : Point α) : α :=
  sqrt ((t1.x - t0.x) ^ 2 + (t1.y - t0.y) ^ 2)

/-- The argument `touches` is the list `e.touches`. -/
def handleTouchStart (sqrt : α → α) (s : ViewerState α) (touches : List (Point α)) :
    ViewerState α :=
  match touches with
  | [t0] =>
    if s.zoomLevel > 1 then
      { s with isDragging := true,
               dragStart := ⟨t0.x - s.panOffset.x, t0.y - s.panOffset.y⟩ }
    else s
  | [t0, t1] =>
    let distance := touchDistance sqrt t0 t1
    { s with isDragging := false, initialPinchDistance := distance,
             initialZoomLevel := s.zoomLevel }
  | _ => s

def handleMouseMove (s : ViewerState α) (client : Point α) : ViewerState α :=
  if s.isDragging = true ∧ s.zoomLevel > 1 then
    { s with panOffset := ⟨client.x - s.dragStart.x, client.y - s.dragStart.y⟩ }
  else s

def handleTouchMove (sqrt : α → α) (s : ViewerState α) (touches : List (Point α)) :
    ViewerState α :=
  match touches with
  | [t0] =>
    if s.isDragging = true ∧ s.zoomLevel > 1 then
      { s with panOffset := ⟨t0.x - s.dragStart.x, t0.y - s.dragStart.y⟩ }
    else s
  | [t0, t1] =>
    let distance := touchDistance sqrt t0 t1
    if s.initialPinchDistance > 0 then
      let scale := distance / s.initialPinchDistance
      let newZoom := min (max (s.initialZoomLevel * scale) 0.5) 5
      { s with zoomLevel := newZoom,
               panOffset := if newZoom ≤ 1 then ⟨0, 0⟩ else s.panOffset }
    else s
  | _ => s

def handleMouseUp (s : ViewerState α) : ViewerState α :=
  { s with isDragging := false }

def handleWheel (s : ViewerState α) (deltaY : α) : ViewerState α :=
  if deltaY < 0 then handleZoomIn s else handleZoomOut s

def handleTouchEnd (s : ViewerState α) : ViewerState α :=
  { s with isDragging := false, initialPinchDistance := 0, initialZoomLevel := 1 }

/-- The inputs of the viewer: the two calls made by the page (`openZoom`,
`closeZoom`), the three buttons of the modal, and the mouse, touch and wheel
events bound on the image container. -/
inductive Event (α : Type) where
  | openZoom (imageSrc title : String)
  | closeZoom
  | handleZoomIn
  | handleZoomOut
  | resetZoom
  | handleMouseDown (client : Point α)
  | handleMouseMove (client : Point α)
  | handleMouseUp
  | handleTouchStart (touches : List (Point α))
  | handleTouchMove (touches : List (Point α))
  | handleTouchEnd
  | handleWheel (deltaY : α)

/-- One event, handled in the current state. -/
def step (sqrt : α → α) (s : ViewerState α) : Event α → ViewerState α
  | .openZoom imageSrc title => openZoom s imageSrc title
  | .closeZoom => closeZoom s
  | .handleZoomIn => handleZoomIn s
  | .handleZoomOut => handleZoomOut s
  | .resetZoom => resetZoom s
  | .handleMouseDown client => handleMouseDown s client
  | .handleMouseMove client => handleMouseMove s client
  | .handleMouseUp => handleMouseUp s
  | .handleTouchStart touches => handleTouchStart sqrt s touches
  | .handleTouchMove touches => handleTouchMove sqrt s touches
  | .handleTouchEnd => handleTouchEnd s
  | .handleWheel deltaY => handleWheel s deltaY

/-- The state reached from the initial state by a finite sequence of events. -/
def run (sqrt : α → α) (events : List (Event α)) : ViewerState α :=
  events.foldl (step sqrt) initialState

/-- The pinch update applied after a list of earlier two-finger moves. -/
def pinchMoves (sqrt : α → α) (s : ViewerState α) (moves : List (Point α × Point α)) :
    ViewerState α :=
  moves.foldl (fun st m => handleTouchMove sqrt st [m.1, m.2]) s

end Viewer

/-- A square root on the rationals for evaluating the model: exact on squares of
rationals, the quotient of the integer roots of numerator and denominator
elsewhere. -/
def sqrtRat (q : ℚ) : ℚ := (Nat.sqrt q.num.toNat : ℚ) / (Nat.sqrt q.den : ℚ)

/-! ## Rendered transform of the zoomed image -/

/-- The two CSS transform functions written by the `transform` style of the zoomed
`<img>`. -/
inductive TransformFunction (α : Type) where
  | scale (k : α)
  | translate (tx ty : α)
deriving DecidableEq, Repr

section Transform

variable {α : Type} [LinearOrderedField α]

/-- The style value
`scale(zoomLevel) translate(panOffset.x / zoomLevel px, panOffset.y / zoomLevel px)`
of line 825, as the list of its transform functions. -/
def imageTransform (s : ViewerState α) : List (TransformFunction α) :=
  [TransformFunction.scale s.zoomLevel,
   TransformFunction.translate (s.panOffset.x / s.zoomLevel) (s.panOffset.y / s.zoomLevel)]

/-- One transform function acting on a point, in coordinates relative to the
transform origin. -/
def TransformFunction.apply : TransformFunction α → Point α → Point α
  | TransformFunction.scale k, v => ⟨k * v.x, k * v.y⟩
  | TransformFunction.translate tx ty, v => ⟨v.x + tx, v.y + ty⟩

/-- The CSS meaning of a transform list: the matrices of the functions are
multiplied from left to right, so the last function of the list acts on the
point first. -/
def applyTransformList : List (TransformFunction α) → Point α → Point α
  | [], v => v
  | f :: fs, v => f.apply (applyTransformList fs v)

end Transform

/-! ## File selection and download name -/

/-- The fields of a `File` read by `handleFileSelect` and `handleDownload`. -/
structure File where
  name : String
  type : String
  size : Nat
deriving DecidableEq, Repr

/-- The `useState` cells written by the synchronous part of `handleFileSelect`. -/
structure UploadState where
  selectedFile : Option File
  originalImageUrl : Option String
  isProcessing : Bool
  error : Option String
deriving DecidableEq, Repr

/-- The test `file.type.match(/^image\/(jpeg|jpg|png|gif)$/)`: the expression has no
flags, so `^` and `$` are the two ends of the string and exactly four strings
match. -/
def typeMatches (type : String) : Bool :=
  type == "image/jpeg" || type == "image/jpg" || type == "image/png" ||
    type == "image/gif"

/-- The body of `handleFileSelect` up to `img.src = imageUrl`.  The second component
is the URL given to `img.src`, whose `onload` runs `invertImage`; it is `none`
when the handler returns before that.  `URL.createObjectURL` does not throw on a
`File`, so the `catch` branch is not entered. -/
def handleFileSelect (createObjectURL : File → String) (st : UploadState)
    (file : Option File) : UploadState × Option String :=
  match file with
  | none => (st, none)
  | some f =>
    if !typeMatches f.type then
      ({ st with error := some "Please select a JPG, PNG, or GIF image" }, none)
    else if f.size > 5 * 1024 * 1024 then
      ({ st with error := some "Image size must be less than 5MB" }, none)
    else
      let imageUrl := createObjectURL f
      ({ st with error := none, selectedFile := some f, isProcessing := true,
                 originalImageUrl := some imageUrl }, some imageUrl)

/-- The file name computed by `handleDownload` from `selectedFile.name`:
`split('.')`, then `pop()` (which removes the last piece; its result `extension`
is not used), `join('.')` and the suffix. -/
def downloadFilename (name : String) : String :=
  let originalName := name.toList.splitOn '.'
  let originalName := originalName.dropLast
  let baseName := String.mk (List.intercalate ['.'] originalName)
  baseName ++ "_inverted.png"

/-! ## Zoom buttons in double precision, with the React update queue

The zoom level is a JavaScript number, an IEEE 754 binary64 value.  In this
section the product `prev * 1.5` and the quotient `prev / 1.5` are rounded to
binary64 (`roundDouble`), and a handler is given two states: `render`, the state
of the render in which the handler was created (what its closure reads), and
`pending`, the state with the updates queued so far applied (what the argument
`prev` of a functional update is).  When a render follows every event the two
are equal. -/

namespace Binary64

/-- Round to the nearest integer, a tie going to the even neighbour. -/
def roundHalfEven (x : ℚ) : ℤ :=
  if 2 * (x - ⌊x⌋) < 1 then ⌊x⌋
  else if 2 * (x - ⌊x⌋) > 1 then ⌊x⌋ + 1
  else if ⌊x⌋ % 2 = 0 then ⌊x⌋ else ⌊x⌋ + 1

/-- Rounding of a real result to binary64, round to nearest with ties to even: the
53-bit significand of `q` is `q / 2 ^ (e - 52)` for the binary exponent
`e = Int.log 2 |q|`.  Overflow and subnormal numbers are not modelled, so this is
binary64 rounding for magnitudes from `2 ^ (-1022)` up to the largest double. -/
def roundDouble (q : ℚ) : ℚ :=
  if q = 0 then 0
  else (roundHalfEven (q / 2 ^ (Int.log 2 |q| - 52)) : ℚ) * 2 ^ (Int.log 2 |q| - 52)

/-- The functional update `prev => Math.min(prev * 1.5, 5)` of `handleZoomIn`. -/
def zoomInUpdater (prev : ℚ) : ℚ := min (roundDouble (prev * 1.5)) 5

/-- The functional update `prev => Math.max(prev / 1.5, 0.5)` of `handleZoomOut`. -/
def zoomOutUpdater (prev : ℚ) : ℚ := max (roundDouble (prev / 1.5)) 0.5

/-- `handleZoomIn` reads nothing from its render. -/
def handleZoomIn (pending : ViewerState ℚ) : ViewerState ℚ :=
  { pending with zoomLevel := zoomInUpdater pending.zoomLevel }

/-- `handleZoomOut`: the update of `setZoomLevel` is applied to the queued level, the
test `zoomLevel <= 1` reads the level of the render. -/
def handleZoomOut (render pending : ViewerState ℚ) : ViewerState ℚ :=
  { pending with zoomLevel := zoomOutUpdater pending.zoomLevel,
                 panOffset := if render.zoomLevel ≤ 1 then ⟨0, 0⟩ else pending.panOffset }

/-- A sequence of `handleZoomOut` calls, one for each element of `renders`, the
render in which that call's handler was created. -/
def zoomOutCalls (renders : List (ViewerState ℚ)) (pending : ViewerState ℚ) :
    ViewerState ℚ :=
  renders.foldl (fun p render => handleZoomOut render p) pending

end Binary64

/-! ## Pixel transform: the loop, index by index -/

theorem getD_setD (a : Array Nat) (i j v : Nat) :
    (a.setD i v).getD j 0 = if i = j ∧ i < a.size then v else a.getD j 0 := by
  unfold Array.setD
  by_cases h : i < a.size
  · simp only [h, dite_true, and_true]
    by_cases hij : i = j
    · subst hij
      simp [Array.getD, h]
    · simp only [hij, if_false]
      simp only [Array.getD, Array.size_set]
      by_cases hj : j < a.size
      · simp only [hj, dite_true]
        simp [Array.get_set, hij]
      · simp [hj]
  · simp [h]

/-- The loop entered at counter `i` keeps the length, rewrites every index `j ≥ i`
with `(j - i) % 4 ≠ 3`, and leaves every other index as it was. -/
theorem invertLoop_spec (data : Array Nat) (i : Nat) :
    (invertLoop data i).size = data.size ∧
    ∀ j, (invertLoop data i).getD j 0 =
      if i ≤ j ∧ (j - i) % 4 ≠ 3 ∧ j < data.size
      then toUint8Clamp (255 - (data.getD j 0 : Int)) else data.getD j 0 := by
  induction data, i using invertLoop.induct with
  | case1 data i hi data1 data2 data3 ih =>
    rw [invertLoop]
    simp only [hi, if_true]
    obtain ⟨ihs, ihg⟩ := ih
    have hs3 : data3.size = data.size := by simp [data3, data2, data1, Array.size_setD]
    refine ⟨by rw [ihs, hs3], fun j => ?_⟩
    rw [ihg j, hs3]
    have h3 : data3.getD j 0 =
        if (j = i ∨ j = i + 1 ∨ j = i + 2) ∧ j < data.size
        then toUint8Clamp (255 - (data.getD j 0 : Int)) else data.getD j 0 := by
      simp only [data3, data2, data1, getD_setD, Array.size_setD]
      by_cases h0 : j = i
      · subst h0; simp [hi]
      · by_cases h1 : j = i + 1
        · subst h1; simp
        · by_cases h2 : j = i + 2
          · subst h2; simp
          · have e0 : ¬ (i = j) := fun h => h0 h.symm
            have e1 : ¬ (i + 1 = j) := fun h => h1 h.symm
            have e2 : ¬ (i + 2 = j) := fun h => h2 h.symm
            simp [h0, h1, h2, e0, e1, e2]
    by_cases hc : i + 4 ≤ j ∧ (j - (i + 4)) % 4 ≠ 3 ∧ j < data.size
    · have c1 : i ≤ j ∧ (j - i) % 4 ≠ 3 ∧ j < data.size := by omega
      have c2 : ¬ ((j = i ∨ j = i + 1 ∨ j = i + 2) ∧ j < data.size) := by omega
      rw [if_pos hc, if_pos c1, h3, if_neg c2]
    · rw [if_neg hc, h3]
      by_cases hd : (j = i ∨ j = i + 1 ∨ j = i + 2) ∧ j < data.size
      · have c1 : i ≤ j ∧ (j - i) % 4 ≠ 3 ∧ j < data.size := by omega
        rw [if_pos hd, if_pos c1]
      · have c1 : ¬ (i ≤ j ∧ (j - i) % 4 ≠ 3 ∧ j < data.size) := by omega
        rw [if_neg hd, if_neg c1]
  | case2 data i hi =>
    rw [invertLoop]
    simp only [hi, if_false, true_and]
    intro j
    have : ¬ (i ≤ j ∧ (j - i) % 4 ≠ 3 ∧ j < data.size) := by omega
    rw [if_neg this]

theorem invertPixels_size (data : Array Nat) : (invertPixels data).size = data.size :=
  (invertLoop_spec data 0).1

theorem invertPixels_getD (data : Array Nat) (j : Nat) :
    (invertPixels data).getD j 0 =
      if j % 4 ≠ 3 ∧ j < data.size
      then toUint8Clamp (255 - (data.getD j 0 : Int)) else data.getD j 0 := by
  have h := (invertLoop_spec data 0).2 j
  simpa [invertPixels] using h

theorem toUint8Clamp_sub (b : Nat) (hb : b ≤ 255) :
    toUint8Clamp (255 - (b : Int)) = 255 - b := by
  unfold toUint8Clamp
  split_ifs <;> omega

theorem toUint8Clamp_twice (b : Nat) (hb : b ≤ 255) :
    toUint8Clamp (255 - ((255 - b : Nat) : Int)) = b := by
  unfold toUint8Clamp
  split_ifs <;> omega

/-- Store of `255 - b` for a byte `b`, at a colour index inside the buffer. -/
theorem invertPixels_colour (data : Array Nat)
    (hbyte : ∀ j, j < data.size → data.getD j 0 ≤ 255) (j : Nat) (hj : j < data.size)
    (hc : j % 4 ≠ 3) : (invertPixels data).getD j 0 = 255 - data.getD j 0 := by
  rw [invertPixels_getD, if_pos ⟨hc, hj⟩, toUint8Clamp_sub _ (hbyte j hj)]

theorem invertPixels_alpha (data : Array Nat) (j : Nat) (hc : j % 4 = 3) :
    (invertPixels data).getD j 0 = data.getD j 0 := by
  rw [invertPixels_getD, if_neg (by omega)]

/-! ## Pixel transform: contract -/

/-- C1. For a buffer of bytes whose length is a multiple of 4, the inversion loop
keeps the length, replaces the red, green and blue byte of every pixel by 255 minus
the byte and keeps the alpha byte; in particular, when every pixel of the input is
(255,0,0,255), every pixel of the output is (0,255,255,255). -/
theorem invertPixels_contract (data : Array Nat) (hlen : data.size % 4 = 0)
    (hbyte : ∀ j, j < data.size → data.getD j 0 ≤ 255) :
    (invertPixels data).size = data.size ∧
    (∀ p, 4 * p + 3 < data.size →
      (invertPixels data).getD (4 * p) 0 = 255 - data.getD (4 * p) 0 ∧
      (invertPixels data).getD (4 * p + 1) 0 = 255 - data.getD (4 * p + 1) 0 ∧
      (invertPixels data).getD (4 * p + 2) 0 = 255 - data.getD (4 * p + 2) 0 ∧
      (invertPixels data).getD (4 * p + 3) 0 = data.getD (4 * p + 3) 0) ∧
    ((∀ p, 4 * p + 3 < data.size →
        data.getD (4 * p) 0 = 255 ∧ data.getD (4 * p + 1) 0 = 0 ∧
        data.getD (4 * p + 2) 0 = 0 ∧ data.getD (4 * p + 3) 0 = 255) →
      ∀ p, 4 * p + 3 < data.size →
        (invertPixels data).getD (4 * p) 0 = 0 ∧
        (invertPixels data).getD (4 * p + 1) 0 = 255 ∧
        (invertPixels data).getD (4 * p + 2) 0 = 255 ∧
        (invertPixels data).getD (4 * p + 3) 0 = 255) := by
  have hpix : ∀ p, 4 * p + 3 < data.size →
      (invertPixels data).getD (4 * p) 0 = 255 - data.getD (4 * p) 0 ∧
      (invertPixels data).getD (4 * p + 1) 0 = 255 - data.getD (4 * p + 1) 0 ∧
      (invertPixels data).getD (4 * p + 2) 0 = 255 - data.getD (4 * p + 2) 0 ∧
      (invertPixels data).getD (4 * p + 3) 0 = data.getD (4 * p + 3) 0 := by
    intro p hp
    refine ⟨?_, ?_, ?_, ?_⟩
    · exact invertPixels_colour data hbyte _ (by omega) (by omega)
    · exact invertPixels_colour data hbyte _ (by omega) (by omega)
    · exact invertPixels_colour data hbyte _ (by omega) (by omega)
    · exact invertPixels_alpha data _ (by omega)
  refine ⟨invertPixels_size data, hpix, ?_⟩
  intro hred p hp
  obtain ⟨h0, h1, h2, h3⟩ := hpix p hp
  obtain ⟨r0, r1, r2, r3⟩ := hred p hp
  rw [h0, h1, h2, h3, r0, r1, r2, r3]
  exact ⟨rfl, rfl, rfl, rfl⟩

theorem invertPixels_contract_witness :
    (#[255, 0, 0, 255, 255, 0, 0, 255] : Array Nat).size % 4 = 0 ∧
    (invertPixels #[255, 0, 0, 255, 255, 0, 0, 255]).size = 8 ∧
    (invertPixels #[255, 0, 0, 255, 255, 0, 0, 255]).getD 4 0 = 0 ∧
    (invertPixels #[255, 0, 0, 255, 255, 0, 0, 255]).getD 5 0 = 255 ∧
    (invertPixels #[255, 0, 0, 255, 255, 0, 0, 255]).getD 6 0 = 255 ∧
    (invertPixels #[255, 0, 0, 255, 255, 0, 0, 255]).getD 7 0 = 255 :=
  have h := invertPixels_contract #[255, 0, 0, 255, 255, 0, 0, 255] (by decide) (by decide)
  ⟨by decide, h.1,
    h.2.2 (by
      intro p hp
      have hp2 : p < 2 := by
        have : 4 * p + 3 < 8 := hp
        omega
      interval_cases p <;> decide) 1 (by decide)⟩

/-- C2. For a buffer of bytes whose length is a multiple of 4, running the inversion
loop on its own output gives back the input buffer. -/
theorem invertPixels_twice (data : Array Nat) (_hlen : data.size % 4 = 0)
    (hbyte : ∀ j, j < data.size → data.getD j 0 ≤ 255) :
    invertPixels (invertPixels data) = data := by
  have hsz : (invertPixels (invertPixels data)).size = data.size := by
    rw [invertPixels_size, invertPixels_size]
  have hget : ∀ j, j < data.size →
      (invertPixels (invertPixels data)).getD j 0 = data.getD j 0 := by
    intro j hj
    by_cases hc : j % 4 = 3
    · rw [invertPixels_alpha _ _ hc, invertPixels_alpha _ _ hc]
    · have hb := hbyte j hj
      have h1 := invertPixels_colour data hbyte j hj hc
      rw [invertPixels_getD, if_pos ⟨hc, by rw [invertPixels_size]; exact hj⟩, h1]
      exact toUint8Clamp_twice _ hb
  apply Array.ext _ _ hsz
  intro j h1 h2
  have := hget j h2
  simpa [Array.getD, h1, h2] using this

theorem invertPixels_twice_witness :
    (#[12, 200, 0, 77, 255, 1, 128, 0] : Array Nat).size % 4 = 0 ∧
    invertPixels (invertPixels #[12, 200, 0, 77, 255, 1, 128, 0]) =
      #[12, 200, 0, 77, 255, 1, 128, 0] :=
  ⟨by decide, invertPixels_twice #[12, 200, 0, 77, 255, 1, 128, 0] (by decide) (by decide)⟩

/-! ## Viewer: the zoom level stays in range -/

section ViewerProofs

variable {α : Type} [LinearOrderedField α]

theorem step_zoomLevel_range (sqrt : α → α) (s : ViewerState α) (e : Event α)
    (h : 0.5 ≤ s.zoomLevel ∧ s.zoomLevel ≤ 5) :
    0.5 ≤ (step sqrt s e).zoomLevel ∧ (step sqrt s e).zoomLevel ≤ 5 := by
  obtain ⟨hlo, hhi⟩ := h
  have h15 : (0.5 : α) ≤ s.zoomLevel * 1.5 := by
    have : (0.5 : α) * 1.5 ≤ s.zoomLevel * 1.5 :=
      mul_le_mul_of_nonneg_right hlo (by norm_num)
    have h2 : (0.5 : α) ≤ 0.5 * 1.5 := by norm_num
    exact le_trans h2 this
  have hdiv : s.zoomLevel / 1.5 ≤ 5 := by
    rw [div_le_iff₀ (by norm_num)]
    have : (5 : α) ≤ 5 * 1.5 := by norm_num
    exact le_trans hhi this
  have hin : (0.5 : α) ≤ min (s.zoomLevel * 1.5) 5 ∧ min (s.zoomLevel * 1.5) 5 ≤ 5 :=
    ⟨le_min h15 (by norm_num), min_le_right _ _⟩
  have hout : (0.5 : α) ≤ max (s.zoomLevel / 1.5) 0.5 ∧ max (s.zoomLevel / 1.5) 0.5 ≤ 5 :=
    ⟨le_max_right _ _, max_le hdiv (by norm_num)⟩
  have hone : (0.5 : α) ≤ 1 ∧ (1 : α) ≤ 5 := ⟨by norm_num, by norm_num⟩
  cases e with
  | openZoom imageSrc title => exact hone
  | closeZoom => exact hone
  | handleZoomIn => exact hin
  | handleZoomOut => exact hout
  | resetZoom => exact hone
  | handleMouseDown client =>
    simp only [step, handleMouseDown]
    split_ifs <;> exact ⟨hlo, hhi⟩
  | handleMouseMove client =>
    simp only [step, handleMouseMove]
    split_ifs <;> exact ⟨hlo, hhi⟩
  | handleMouseUp => exact ⟨hlo, hhi⟩
  | handleTouchStart touches =>
    simp only [step, handleTouchStart]
    split
    · split_ifs <;> exact ⟨hlo, hhi⟩
    · exact ⟨hlo, hhi⟩
    · exact ⟨hlo, hhi⟩
  | handleTouchMove touches =>
    simp only [step, handleTouchMove]
    split
    · split_ifs <;> exact ⟨hlo, hhi⟩
    · split_ifs
      all_goals
        first
        | exact ⟨hlo, hhi⟩
        | exact ⟨le_min (le_max_right _ _) (by norm_num), min_le_right _ _⟩
    · exact ⟨hlo, hhi⟩
  | handleTouchEnd => exact ⟨hlo, hhi⟩
  | handleWheel deltaY =>
    simp only [step, handleWheel]
    split_ifs
    · exact hin
    · exact hout

theorem foldl_step_zoomLevel_range (sqrt : α → α) (events : List (Event α))
    (s : ViewerState α) (h : 0.5 ≤ s.zoomLevel ∧ s.zoomLevel ≤ 5) :
    0.5 ≤ (events.foldl (step sqrt) s).zoomLevel ∧
      (events.foldl (step sqrt) s).zoomLevel ≤ 5 := by
  induction events generalizing s with
  | nil => exact h
  | cons e rest ih => exact ih (step sqrt s e) (step_zoomLevel_range sqrt s e h)

/-- C3. After any finite sequence of viewer events (open, close, the zoom buttons,
reset, wheel, mouse and touch events) from the initial state, `zoomLevel` lies
in the closed interval from 0.5 to 5. -/
theorem zoomLevel_in_range (sqrt : α → α) (events : List (Event α)) :
    0.5 ≤ (run sqrt events).zoomLevel ∧ (run sqrt events).zoomLevel ≤ 5 :=
  foldl_step_zoomLevel_range sqrt events initialState
    ⟨by norm_num [initialState], by norm_num [initialState]⟩

/-! ## Viewer: pan offset at zoom levels up to 1 -/

/-- C4. The sequence open, zoom in, mouse down at (0,0), mouse move to (10,0), zoom
out ends with `zoomLevel` equal to 1 and `panOffset` equal to (10,0):
`handleZoomOut` tested the level 1.5 of before its update and kept the offset. -/
theorem zoomOut_keeps_pan_at_level_one :
    (run sqrtRat [Event.openZoom "blob:original" "Original Image", Event.handleZoomIn,
        Event.handleMouseDown ⟨0, 0⟩, Event.handleMouseMove ⟨10, 0⟩,
        Event.handleZoomOut]).zoomLevel = 1 ∧
    (run sqrtRat [Event.openZoom "blob:original" "Original Image", Event.handleZoomIn,
        Event.handleMouseDown ⟨0, 0⟩, Event.handleMouseMove ⟨10, 0⟩,
        Event.handleZoomOut]).panOffset = ⟨10, 0⟩ := by
  norm_num [run, step, initialState, openZoom, handleZoomIn, handleMouseDown,
    handleMouseMove, handleZoomOut]

/-! ## Viewer: open, reset and close -/

/-- C5. From every state, `resetZoom` and `openZoom` give `zoomLevel` 1 and
`panOffset` (0,0); `openZoom` also sets `isOpen` and stores the image reference
and the title it was given. -/
theorem resetZoom_openZoom_view (s : ViewerState α) (imageSrc title : String) :
    (resetZoom s).zoomLevel = 1 ∧ (resetZoom s).panOffset = ⟨0, 0⟩ ∧
    (openZoom s imageSrc title).zoomLevel = 1 ∧
    (openZoom s imageSrc title).panOffset = ⟨0, 0⟩ ∧
    (openZoom s imageSrc title).isOpen = true ∧
    (openZoom s imageSrc title).imageSrc = imageSrc ∧
    (openZoom s imageSrc title).title = title :=
  ⟨rfl, rfl, rfl, rfl, rfl, rfl, rfl⟩

/-- C6, as stated, fails: after open, zoom in and a mouse down at (3,4), `closeZoom`
leaves `dragStart` at (3,4), so not every field is back at its initial value. -/
theorem closeZoom_not_all_initial :
    ¬ ((closeZoom (run sqrtRat [Event.openZoom "blob:original" "Original Image",
          Event.handleZoomIn, Event.handleMouseDown ⟨3, 4⟩])).isOpen = false ∧
       (closeZoom (run sqrtRat [Event.openZoom "blob:original" "Original Image",
          Event.handleZoomIn, Event.handleMouseDown ⟨3, 4⟩])).imageSrc = "" ∧
       (closeZoom (run sqrtRat [Event.openZoom "blob:original" "Original Image",
          Event.handleZoomIn, Event.handleMouseDown ⟨3, 4⟩])).title = "" ∧
       (closeZoom (run sqrtRat [Event.openZoom "blob:original" "Original Image",
          Event.handleZoomIn, Event.handleMouseDown ⟨3, 4⟩])).zoomLevel = 1 ∧
       (closeZoom (run sqrtRat [Event.openZoom "blob:original" "Original Image",
          Event.handleZoomIn, Event.handleMouseDown ⟨3, 4⟩])).panOffset = ⟨0, 0⟩ ∧
       (closeZoom (run sqrtRat [Event.openZoom "blob:original" "Original Image",
          Event.handleZoomIn, Event.handleMouseDown ⟨3, 4⟩])).isDragging = false ∧
       (closeZoom (run sqrtRat [Event.openZoom "blob:original" "Original Image",
          Event.handleZoomIn, Event.handleMouseDown ⟨3, 4⟩])).dragStart = ⟨0, 0⟩ ∧
       (closeZoom (run sqrtRat [Event.openZoom "blob:original" "Original Image",
          Event.handleZoomIn, Event.handleMouseDown ⟨3, 4⟩])).initialPinchDistance = 0 ∧
       (closeZoom (run sqrtRat [Event.openZoom "blob:original" "Original Image",
          Event.handleZoomIn, Event.handleMouseDown ⟨3, 4⟩])).initialZoomLevel = 1) := by
  norm_num [run, step, initialState, openZoom, handleZoomIn, handleMouseDown, closeZoom]

/-- C6, amended. From every state, `closeZoom` gives `isOpen` false, an empty image
reference and title, `zoomLevel` 1, `panOffset` (0,0) and `isDragging` false, and
keeps `dragStart` as it was. -/
theorem closeZoom_effect (s : ViewerState α) :
    (closeZoom s).isOpen = false ∧ (closeZoom s).imageSrc = "" ∧
    (closeZoom s).title = "" ∧ (closeZoom s).zoomLevel = 1 ∧
    (closeZoom s).panOffset = ⟨0, 0⟩ ∧ (closeZoom s).isDragging = false ∧
    (closeZoom s).dragStart = s.dragStart :=
  ⟨rfl, rfl, rfl, rfl, rfl, rfl, rfl⟩

/-- The two pinch cells are not written by `closeZoom`; `handleTouchEnd` is the handler
that sets them back to 0 and 1. -/
theorem closeZoom_pinch_cells (s : ViewerState α) :
    (closeZoom s).initialPinchDistance = s.initialPinchDistance ∧
    (closeZoom s).initialZoomLevel = s.initialZoomLevel ∧
    (handleTouchEnd s).initialPinchDistance = 0 ∧
    (handleTouchEnd s).initialZoomLevel = 1 :=
  ⟨rfl, rfl, rfl, rfl⟩

/-! ## Viewer: pinch -/

theorem sq_add_sq_pos_of_ne (a b : Point α) (hab : a ≠ b) :
    0 < (b.x - a.x) ^ 2 + (b.y - a.y) ^ 2 := by
  obtain ⟨ax, ay⟩ := a
  obtain ⟨bx, by1⟩ := b
  by_cases hx : bx = ax
  · have hy : by1 - ay ≠ 0 := by
      intro h
      apply hab
      rw [hx, sub_eq_zero.mp h]
    have := pow_pos (abs_pos.mpr hy) 2
    rw [sq_abs] at this
    have h0 := sq_nonneg (bx - ax)
    show 0 < (bx - ax) ^ 2 + (by1 - ay) ^ 2
    linarith
  · have hx1 : bx - ax ≠ 0 := sub_ne_zero.mpr hx
    have := pow_pos (abs_pos.mpr hx1) 2
    rw [sq_abs] at this
    have h0 := sq_nonneg (by1 - ay)
    show 0 < (bx - ax) ^ 2 + (by1 - ay) ^ 2
    linarith

/-- A two-finger move never writes the two cells captured at the start of a pinch. -/
theorem pinchMoves_initial (sqrt : α → α) (moves : List (Point α × Point α))
    (s : ViewerState α) :
    (pinchMoves sqrt s moves).initialPinchDistance = s.initialPinchDistance ∧
    (pinchMoves sqrt s moves).initialZoomLevel = s.initialZoomLevel := by
  induction moves generalizing s with
  | nil => exact ⟨rfl, rfl⟩
  | cons m rest ih =>
    have hstep : (handleTouchMove sqrt s [m.1, m.2]).initialPinchDistance
          = s.initialPinchDistance ∧
        (handleTouchMove sqrt s [m.1, m.2]).initialZoomLevel = s.initialZoomLevel := by
      simp only [handleTouchMove]
      split_ifs <;> exact ⟨rfl, rfl⟩
    have h := ih (handleTouchMove sqrt s [m.1, m.2])
    simp only [pinchMoves, List.foldl_cons] at h ⊢
    exact ⟨h.1.trans hstep.1, h.2.trans hstep.2⟩

/-- C7. Let `sqrt` be positive on positive numbers (as the square root is), so that
`touchDistance` of two distinct points is positive.  After a two-touch
`handleTouchStart` at distinct points `a`, `b` in a state of zoom level `z0`, and
any number of two-touch moves, a two-touch `handleTouchMove` at `c`, `d` sets
`zoomLevel` to `z0 * dist(c,d) / dist(a,b)` clamped to the interval from 0.5 to 5,
sets `panOffset` to (0,0) when that level is at most 1 and keeps it otherwise;
with initial distance 100, initial level 2 and current distance 50 the level
becomes 1 and the offset (0,0). -/
theorem pinch_update (sqrt : α → α) (hsqrt : ∀ v : α, 0 < v → 0 < sqrt v)
    (s : ViewerState α) (a b c d : Point α) (hab : a ≠ b)
    (moves : List (Point α × Point α)) :
    let s1 := pinchMoves sqrt (handleTouchStart sqrt s [a, b]) moves
    let s2 := handleTouchMove sqrt s1 [c, d]
    let newZoom :=
      min (max (s.zoomLevel * touchDistance sqrt c d / touchDistance sqrt a b) 0.5) 5
    s2.zoomLevel = newZoom ∧
    (newZoom ≤ 1 → s2.panOffset = ⟨0, 0⟩) ∧
    (1 < newZoom → s2.panOffset = s1.panOffset) ∧
    (touchDistance sqrt a b = 100 → s.zoomLevel = 2 → touchDistance sqrt c d = 50 →
      s2.zoomLevel = 1 ∧ s2.panOffset = ⟨0, 0⟩) := by
  intro s1 s2 newZoom
  have hpos : 0 < touchDistance sqrt a b := hsqrt _ (sq_add_sq_pos_of_ne a b hab)
  obtain ⟨hd, hz⟩ := pinchMoves_initial sqrt moves (handleTouchStart sqrt s [a, b])
  have hd1 : s1.initialPinchDistance = touchDistance sqrt a b := hd
  have hz1 : s1.initialZoomLevel = s.zoomLevel := hz
  have hgt : s1.initialPinchDistance > 0 := by rw [hd1]; exact hpos
  have hnew : min (max (s1.initialZoomLevel *
      (touchDistance sqrt c d / s1.initialPinchDistance)) 0.5) 5 = newZoom := by
    rw [hd1, hz1, ← mul_div_assoc]
  have hzoom : s2.zoomLevel = newZoom := by
    simp only [s2, handleTouchMove, if_pos hgt]
    exact hnew
  have hpan : s2.panOffset = if newZoom ≤ 1 then ⟨0, 0⟩ else s1.panOffset := by
    simp only [s2, handleTouchMove, if_pos hgt]
    rw [hnew]
  have hle : newZoom ≤ 1 → s2.panOffset = ⟨0, 0⟩ := fun h => by rw [hpan, if_pos h]
  refine ⟨hzoom, hle, fun h => by rw [hpan, if_neg (not_le.mpr h)], ?_⟩
  intro h100 h2 h50
  have hone : newZoom = 1 := by
    simp only [newZoom, h100, h2, h50]
    norm_num
  exact ⟨hzoom.trans hone, hle (le_of_eq hone)⟩

theorem pinch_update_witness :
    (⟨0, 0⟩ : Point ℝ) ≠ ⟨100, 0⟩ ∧
    (handleTouchMove Real.sqrt
      (pinchMoves Real.sqrt
        (handleTouchStart Real.sqrt
          { isOpen := true, imageSrc := "blob:original", title := "Original Image",
            zoomLevel := 2, panOffset := ⟨7, -3⟩, isDragging := false,
            dragStart := ⟨0, 0⟩, initialPinchDistance := 0, initialZoomLevel := 1 }
          [⟨0, 0⟩, ⟨100, 0⟩])
        [(⟨0, 0⟩, ⟨150, 0⟩)])
      [⟨10, 10⟩, ⟨10, 60⟩]).zoomLevel = 1 ∧
    (handleTouchMove Real.sqrt
      (pinchMoves Real.sqrt
        (handleTouchStart Real.sqrt
          { isOpen := true, imageSrc := "blob:original", title := "Original Image",
            zoomLevel := 2, panOffset := ⟨7, -3⟩, isDragging := false,
            dragStart := ⟨0, 0⟩, initialPinchDistance := 0, initialZoomLevel := 1 }
          [⟨0, 0⟩, ⟨100, 0⟩])
        [(⟨0, 0⟩, ⟨150, 0⟩)])
      [⟨10, 10⟩, ⟨10, 60⟩]).panOffset = ⟨0, 0⟩ :=
  have hne : (⟨0, 0⟩ : Point ℝ) ≠ ⟨100, 0⟩ := by
    intro h
    have hx := congrArg Point.x h
    norm_num at hx
  have h100 : touchDistance Real.sqrt (⟨0, 0⟩ : Point ℝ) ⟨100, 0⟩ = 100 := by
    have e : ((100 : ℝ) - 0) ^ 2 + ((0 : ℝ) - 0) ^ 2 = 100 ^ 2 := by norm_num
    simp only [touchDistance, e]
    exact Real.sqrt_sq (by norm_num)
  have h50 : touchDistance Real.sqrt (⟨10, 10⟩ : Point ℝ) ⟨10, 60⟩ = 50 := by
    have e : ((10 : ℝ) - 10) ^ 2 + ((60 : ℝ) - 10) ^ 2 = 50 ^ 2 := by norm_num
    simp only [touchDistance, e]
    exact Real.sqrt_sq (by norm_num)
  ⟨hne, (pinch_update Real.sqrt (fun _ hv => Real.sqrt_pos.mpr hv) _ _ _ _ _ hne
    [(⟨0, 0⟩, ⟨150, 0⟩)]).2.2.2 h100 rfl h50⟩

/-! ## Viewer: drag -/

/-- C8. When `zoomLevel` exceeds 1, `handleMouseDown` at `a` sets `isDragging` and
stores `a - panOffset` in `dragStart`, and a following `handleMouseMove` at `b`
sets `panOffset` to `b - dragStart`, which is the old offset plus `b - a`; a move
to `a` itself gives back the old offset.  When `zoomLevel` is at most 1,
`handleMouseDown` and `handleMouseMove` leave the state as it is. -/
theorem drag_pan (s : ViewerState α) (a b : Point α) :
    (1 < s.zoomLevel →
      (handleMouseDown s a).isDragging = true ∧
      (handleMouseDown s a).dragStart = ⟨a.x - s.panOffset.x, a.y - s.panOffset.y⟩ ∧
      (handleMouseMove (handleMouseDown s a) b).panOffset =
        ⟨b.x - (handleMouseDown s a).dragStart.x,
         b.y - (handleMouseDown s a).dragStart.y⟩ ∧
      (handleMouseMove (handleMouseDown s a) b).panOffset =
        ⟨s.panOffset.x + (b.x - a.x), s.panOffset.y + (b.y - a.y)⟩ ∧
      (handleMouseMove (handleMouseDown s a) a).panOffset = s.panOffset) ∧
    (s.zoomLevel ≤ 1 →
      (handleMouseDown s a).isDragging = s.isDragging ∧
      (handleMouseDown s a).dragStart = s.dragStart ∧
      (handleMouseMove s b).panOffset = s.panOffset ∧
      (handleMouseMove (handleMouseDown s a) b).panOffset = s.panOffset) := by
  constructor
  · intro hz
    have hd : handleMouseDown s a =
        { s with isDragging := true,
                 dragStart := ⟨a.x - s.panOffset.x, a.y - s.panOffset.y⟩ } := by
      simp only [handleMouseDown, gt_iff_lt, if_pos hz]
    have hm : ∀ c : Point α, (handleMouseMove (handleMouseDown s a) c).panOffset =
        ⟨c.x - (a.x - s.panOffset.x), c.y - (a.y - s.panOffset.y)⟩ := by
      intro c
      rw [hd]
      simp only [handleMouseMove, gt_iff_lt, hz, and_self, if_true]
    refine ⟨by rw [hd], by rw [hd], ?_, ?_, ?_⟩
    · rw [hm b, hd]
    · rw [hm b]
      congr 1 <;> ring
    · rw [hm a]
      obtain ⟨px, py⟩ := s.panOffset
      congr 1 <;> ring
  · intro hz
    have hnot : ¬ (s.zoomLevel > 1) := not_lt.mpr hz
    have hd : handleMouseDown s a = s := by
      simp only [handleMouseDown, if_neg hnot]
    have hm : handleMouseMove s b = s := by
      simp only [handleMouseMove, hnot, and_false, if_false]
    refine ⟨by rw [hd], by rw [hd], by rw [hm], by rw [hd, hm]⟩

theorem drag_pan_witness :
    (1 : ℚ) < (handleZoomIn (initialState : ViewerState ℚ)).zoomLevel ∧
    (handleMouseMove (handleMouseDown (handleZoomIn initialState) ⟨20, 30⟩)
      (⟨25, 10⟩ : Point ℚ)).panOffset = ⟨0 + (25 - 20), 0 + (10 - 30)⟩ ∧
    (initialState : ViewerState ℚ).zoomLevel ≤ 1 ∧
    (handleMouseMove (initialState : ViewerState ℚ) ⟨25, 10⟩).panOffset = ⟨0, 0⟩ :=
  ⟨by norm_num [handleZoomIn, initialState],
   ((drag_pan (handleZoomIn initialState) ⟨20, 30⟩ ⟨25, 10⟩).1
      (by norm_num [handleZoomIn, initialState])).2.2.2.1,
   by norm_num [initialState],
   ((drag_pan initialState ⟨20, 30⟩ ⟨25, 10⟩).2 (by norm_num [initialState])).2.2.1⟩

/-! ## Viewer: repeated zoom steps in exact arithmetic -/

/-- In exact arithmetic (no rounding of the products), `n` zoom-in steps from a level
of at most 5 give `min (z * 1.5 ^ n) 5`. -/
theorem handleZoomIn_iterate_zoomLevel (s : ViewerState α) (n : Nat)
    (hhi : s.zoomLevel ≤ 5) :
    (handleZoomIn^[n] s).zoomLevel = min (s.zoomLevel * 1.5 ^ n) 5 := by
  induction n with
  | zero => simp [min_eq_left hhi]
  | succ k ih =>
    rw [Function.iterate_succ_apply']
    show min ((handleZoomIn^[k] s).zoomLevel * 1.5) 5 = min (s.zoomLevel * 1.5 ^ (k + 1)) 5
    rw [ih, pow_succ, ← mul_assoc]
    rcases le_total (s.zoomLevel * 1.5 ^ k) 5 with h | h
    · rw [min_eq_left h]
    · rw [min_eq_right h]
      have h1 : (5 : α) ≤ 5 * 1.5 := by norm_num
      have h2 : (5 : α) * 1.5 ≤ s.zoomLevel * 1.5 ^ k * 1.5 :=
        mul_le_mul_of_nonneg_right h (by norm_num)
      rw [min_eq_right h1, min_eq_right (le_trans h1 h2)]

/-- In exact arithmetic (no rounding of the quotients), `n` zoom-out steps from a
level of at least 0.5 give `max (z / 1.5 ^ n) 0.5`. -/
theorem handleZoomOut_iterate_zoomLevel (s : ViewerState α) (n : Nat)
    (hlo : 0.5 ≤ s.zoomLevel) :
    (handleZoomOut^[n] s).zoomLevel = max (s.zoomLevel / 1.5 ^ n) 0.5 := by
  induction n with
  | zero => simp [max_eq_left hlo]
  | succ k ih =>
    rw [Function.iterate_succ_apply']
    show max ((handleZoomOut^[k] s).zoomLevel / 1.5) 0.5 =
      max (s.zoomLevel / 1.5 ^ (k + 1)) 0.5
    rw [ih, pow_succ, ← div_div]
    rcases le_total (0.5 : α) (s.zoomLevel / 1.5 ^ k) with h | h
    · rw [max_eq_left h]
    · rw [max_eq_right h]
      have h1 : (0.5 : α) / 1.5 ≤ 0.5 := by norm_num
      have h2 : s.zoomLevel / 1.5 ^ k / 1.5 ≤ (0.5 : α) / 1.5 :=
        div_le_div_of_nonneg_right h (by norm_num)
      rw [max_eq_right h1, max_eq_right (le_trans h2 h1)]

/-! ## Viewer: which handlers keep the pan offset at (0,0) for levels up to 1 -/

/-- Every event other than a zoom-out (the button, or a wheel event with
`deltaY ≥ 0`) keeps the property that `panOffset` is (0,0) when `zoomLevel ≤ 1`. -/
theorem step_pan_reset_of_not_zoomOut (sqrt : α → α) (s : ViewerState α) (e : Event α)
    (hinv : s.zoomLevel ≤ 1 → s.panOffset = ⟨0, 0⟩)
    (hbutton : e ≠ Event.handleZoomOut)
    (hwheel : ∀ deltaY, e = Event.handleWheel deltaY → deltaY < 0) :
    (step sqrt s e).zoomLevel ≤ 1 → (step sqrt s e).panOffset = ⟨0, 0⟩ := by
  have hin : (handleZoomIn s).zoomLevel ≤ 1 → (handleZoomIn s).panOffset = ⟨0, 0⟩ := by
    intro h
    have h1 : min (s.zoomLevel * 1.5) 5 ≤ 1 := h
    have h2 : s.zoomLevel * 1.5 ≤ 1 := by
      rcases min_le_iff.mp h1 with h3 | h3
      · exact h3
      · exact absurd h3 (by norm_num)
    have h4 : s.zoomLevel ≤ 1 := by
      by_contra hc
      have h5 : (1 : α) < s.zoomLevel := not_le.mp hc
      have h6 : (1 : α) * 1.5 < s.zoomLevel * 1.5 :=
        mul_lt_mul_of_pos_right h5 (by norm_num)
      have h7 : (1 : α) < 1 * 1.5 := by norm_num
      exact absurd (lt_trans h7 h6) (not_lt.mpr h2)
    exact hinv h4
  cases e with
  | openZoom imageSrc title => exact fun _ => rfl
  | closeZoom => exact fun _ => rfl
  | handleZoomIn => exact hin
  | handleZoomOut => exact absurd rfl hbutton
  | resetZoom => exact fun _ => rfl
  | handleMouseDown client =>
    simp only [step, handleMouseDown]
    split_ifs <;> exact hinv
  | handleMouseMove client =>
    simp only [step, handleMouseMove]
    split_ifs with hc
    · exact fun h => absurd hc.2 (not_lt.mpr h)
    · exact hinv
  | handleMouseUp => exact hinv
  | handleTouchStart touches =>
    simp only [step, handleTouchStart]
    split
    · split_ifs <;> exact hinv
    · exact hinv
    · exact hinv
  | handleTouchMove touches =>
    simp only [step, handleTouchMove]
    split
    · split_ifs with hc
      · exact fun h => absurd hc.2 (not_lt.mpr h)
      · exact hinv
    · by_cases hp : s.initialPinchDistance > 0
      · simp only [if_pos hp]
        intro h
        rw [if_pos h]
      · simp only [if_neg hp]
        exact hinv
    · exact hinv
  | handleTouchEnd => exact hinv
  | handleWheel deltaY =>
    simp only [step, handleWheel, if_pos (hwheel deltaY rfl)]
    exact hin

/-! ## Viewer: the rendered transform -/

/-- C13. After any finite sequence of viewer events from the initial state,
`zoomLevel` is not zero, and the transform list written on the image, `scale` by
`zoomLevel` followed by `translate` by `panOffset / zoomLevel`, maps every point
`v` to `zoomLevel * v + panOffset`. -/
theorem imageTransform_apply (sqrt : α → α) (events : List (Event α)) (v : Point α) :
    (run sqrt events).zoomLevel ≠ 0 ∧
    applyTransformList (imageTransform (run sqrt events)) v =
      ⟨(run sqrt events).zoomLevel * v.x + (run sqrt events).panOffset.x,
       (run sqrt events).zoomLevel * v.y + (run sqrt events).panOffset.y⟩ := by
  have hrange := foldl_step_zoomLevel_range sqrt events initialState
    ⟨by norm_num [initialState], by norm_num [initialState]⟩
  have hpos : (0 : α) < (run sqrt events).zoomLevel :=
    lt_of_lt_of_le (by norm_num) hrange.1
  have hne : (run sqrt events).zoomLevel ≠ 0 := ne_of_gt hpos
  refine ⟨hne, ?_⟩
  simp only [imageTransform, applyTransformList, TransformFunction.apply]
  congr 1
  · rw [mul_add, mul_div_cancel₀ _ hne]
  · rw [mul_add, mul_div_cancel₀ _ hne]

end ViewerProofs

/-! ## File selection -/

/-- The four strings accepted by `typeMatches`. -/
theorem typeMatches_iff (type : String) :
    typeMatches type = true ↔
      type ∈ ["image/jpeg", "image/jpg", "image/png", "image/gif"] := by
  simp [typeMatches, or_assoc]

/-- C12. For every file, `handleFileSelect` rejects it (an error message is set,
`selectedFile` and `isProcessing` are as before, no image load is started) exactly
when its type is not one of `image/jpeg`, `image/jpg`, `image/png`, `image/gif`
or its size exceeds 5 * 1024 * 1024 bytes; a file of an allowed type and of size
at most that bound is accepted (error cleared, `selectedFile` set to the file,
`isProcessing` true, the image load started). -/
theorem handleFileSelect_validation (createObjectURL : File → String)
    (st : UploadState) (f : File) :
    (((handleFileSelect createObjectURL st (some f)).1.error.isSome = true ∧
       (handleFileSelect createObjectURL st (some f)).1.selectedFile = st.selectedFile ∧
       (handleFileSelect createObjectURL st (some f)).1.isProcessing = st.isProcessing ∧
       (handleFileSelect createObjectURL st (some f)).2 = none) ↔
      (f.type ∉ ["image/jpeg", "image/jpg", "image/png", "image/gif"] ∨
        f.size > 5 * 1024 * 1024)) ∧
    (f.type ∈ ["image/jpeg", "image/jpg", "image/png", "image/gif"] →
      f.size ≤ 5 * 1024 * 1024 →
      (handleFileSelect createObjectURL st (some f)).1.error = none ∧
      (handleFileSelect createObjectURL st (some f)).1.selectedFile = some f ∧
      (handleFileSelect createObjectURL st (some f)).1.isProcessing = true ∧
      (handleFileSelect createObjectURL st (some f)).2 = some (createObjectURL f)) := by
  have hacc : f.type ∈ ["image/jpeg", "image/jpg", "image/png", "image/gif"] →
      f.size ≤ 5 * 1024 * 1024 →
      (handleFileSelect createObjectURL st (some f)).1.error = none ∧
      (handleFileSelect createObjectURL st (some f)).1.selectedFile = some f ∧
      (handleFileSelect createObjectURL st (some f)).1.isProcessing = true ∧
      (handleFileSelect createObjectURL st (some f)).2 = some (createObjectURL f) := by
    intro ht hs
    have ht1 : typeMatches f.type = true := (typeMatches_iff _).mpr ht
    have hs1 : ¬ (f.size > 5 * 1024 * 1024) := not_lt.mpr hs
    simp only [handleFileSelect, ht1, hs1]
    exact ⟨rfl, rfl, rfl, rfl⟩
  refine ⟨⟨fun hrej => ?_, fun hbad => ?_⟩, hacc⟩
  · by_contra hcon
    have ht : f.type ∈ ["image/jpeg", "image/jpg", "image/png", "image/gif"] := by
      by_contra h
      exact hcon (Or.inl h)
    have hs : f.size ≤ 5 * 1024 * 1024 := by
      by_contra h
      exact hcon (Or.inr (not_le.mp h))
    have herr := (hacc ht hs).1
    rw [herr] at hrej
    exact absurd hrej.1 (by simp)
  · by_cases ht : typeMatches f.type = true
    · have hs : f.size > 5 * 1024 * 1024 := by
        rcases hbad with h | h
        · exact absurd ((typeMatches_iff _).mp ht) h
        · exact h
      simp only [handleFileSelect, ht, hs]
      exact ⟨rfl, rfl, rfl, rfl⟩
    · have ht0 : typeMatches f.type = false := by simpa using ht
      simp only [handleFileSelect, ht0]
      exact ⟨rfl, rfl, rfl, rfl⟩

theorem handleFileSelect_validation_witness :
    ("image/png" ∈ ["image/jpeg", "image/jpg", "image/png", "image/gif"]) ∧
    (2048 ≤ 5 * 1024 * 1024) ∧
    (handleFileSelect (fun f => "blob:" ++ f.name)
      { selectedFile := none, originalImageUrl := none, isProcessing := false,
        error := some "Image size must be less than 5MB" }
      (some { name := "photo.png", type := "image/png", size := 2048 })).1.error = none ∧
    (handleFileSelect (fun f => "blob:" ++ f.name)
      { selectedFile := none, originalImageUrl := none, isProcessing := false,
        error := some "Image size must be less than 5MB" }
      (some { name := "photo.png", type := "image/png", size := 2048 })).1.selectedFile =
        some { name := "photo.png", type := "image/png", size := 2048 } ∧
    (handleFileSelect (fun f => "blob:" ++ f.name)
      { selectedFile := none, originalImageUrl := none, isProcessing := false,
        error := some "Image size must be less than 5MB" }
      (some { name := "photo.png", type := "image/png", size := 2048 })).1.isProcessing =
        true :=
  have h := (handleFileSelect_validation (fun f => "blob:" ++ f.name)
      { selectedFile := none, originalImageUrl := none, isProcessing := false,
        error := some "Image size must be less than 5MB" }
      { name := "photo.png", type := "image/png", size := 2048 }).2
      (by decide) (by decide)
  ⟨by decide, by decide, h.1, h.2.1, h.2.2.1⟩

/-! ## Download name -/

theorem splitOn_append_dot (base ext : List Char) (hext : '.' ∉ ext) :
    (base ++ '.' :: ext).splitOn '.' = base.splitOn '.' ++ [ext] := by
  have hsingle : ext.splitOn '.' = [ext] := by
    refine List.splitOnP_eq_single _ _ ?_
    intro c hc hdot
    rw [eq_of_beq hdot] at hc
    exact hext hc
  induction base with
  | nil =>
    simp only [List.nil_append, List.splitOn, List.splitOnP_cons, List.splitOnP_nil]
    simp only [List.splitOn] at hsingle
    simp [hsingle]
  | cons c rest ih =>
    simp only [List.splitOn] at ih hsingle ⊢
    simp only [List.cons_append, List.splitOnP_cons, ih]
    by_cases hc : (c == '.') = true
    · simp [hc]
    · simp only [hc]
      cases hsp : List.splitOnP (fun x => x == '.') rest with
      | nil => exact absurd hsp (List.splitOnP_ne_nil _ _)
      | cons p ps => rfl

/-- A name with a dot: the pieces before the last dot, joined again, are the name
without its last dot and what follows it. -/
theorem downloadFilename_of_dot (base ext : List Char) (hext : '.' ∉ ext) :
    downloadFilename (String.mk (base ++ '.' :: ext)) =
      String.mk base ++ "_inverted.png" := by
  have hsplit := splitOn_append_dot base ext hext
  have hjoin : List.intercalate ['.'] (base.splitOn '.') = base :=
    List.intercalate_splitOn base '.'
  simp only [downloadFilename, String.toList, hsplit, List.dropLast_concat, hjoin]

/-- A name without a dot: `split` gives the name as its only piece, `pop` removes
it, and the base name is empty. -/
theorem downloadFilename_of_no_dot (name : List Char) (hname : '.' ∉ name) :
    downloadFilename (String.mk name) = "_inverted.png" := by
  have hsingle : name.splitOn '.' = [name] := by
    refine List.splitOnP_eq_single _ _ ?_
    intro c hc hdot
    rw [eq_of_beq hdot] at hc
    exact hname hc
  simp only [downloadFilename, String.toList, hsingle]
  rfl

theorem downloadFilename_examples :
    downloadFilename "photo.jpg" = "photo_inverted.png" ∧
    downloadFilename "a.b.gif" = "a.b_inverted.png" := by
  decide

/-- C11. For the file name `photo`, which has no dot, `handleDownload` computes the
name `_inverted.png`, not `photo_inverted.png`: `pop()` removes the only piece of
the split name and the base name is empty. -/
theorem downloadFilename_photo :
    downloadFilename "photo" = "_inverted.png" ∧
    downloadFilename "photo" ≠ "photo_inverted.png" := by
  decide

/-! ## Binary64 rounding -/

namespace Binary64

theorem roundHalfEven_of_floor (x : ℚ) (n : ℤ) (h0 : (n : ℚ) ≤ x) (h1 : x < n + 1) :
    roundHalfEven x =
      if 2 * (x - n) < 1 then n
      else if 2 * (x - n) > 1 then n + 1
      else if n % 2 = 0 then n else n + 1 := by
  have hfl : ⌊x⌋ = n := Int.floor_eq_iff.mpr ⟨h0, h1⟩
  simp only [roundHalfEven, hfl]

theorem abs_roundHalfEven_sub_le (x : ℚ) : |(roundHalfEven x : ℚ) - x| ≤ 1 / 2 := by
  have h0 : (⌊x⌋ : ℚ) ≤ x := Int.floor_le x
  have h1 : x < ⌊x⌋ + 1 := Int.lt_floor_add_one x
  rw [abs_le]
  unfold roundHalfEven
  split_ifs <;> push_cast <;> constructor <;> linarith

theorem log_eq_of_bounds (q : ℚ) (k : ℤ) (hlo : (2 : ℚ) ^ k ≤ q) (hhi : q < 2 ^ (k + 1)) :
    Int.log 2 q = k := by
  have hq : 0 < q := lt_of_lt_of_le (zpow_pos (by norm_num) k) hlo
  have h1 : k ≤ Int.log 2 q :=
    (Int.zpow_le_iff_le_log (by norm_num) hq).mp (by exact_mod_cast hlo)
  have h2 : Int.log 2 q < k + 1 :=
    (Int.lt_zpow_iff_log_lt (by norm_num) hq).mp (by exact_mod_cast hhi)
  omega

/-- Evaluation of `roundDouble` at a positive number whose binary exponent `k` and
whose integer part `n` of the scaled significand are known. -/
theorem roundDouble_eval (q : ℚ) (k n : ℤ) (hlo : (2 : ℚ) ^ k ≤ q) (hhi : q < 2 ^ (k + 1))
    (h0 : (n : ℚ) ≤ q / 2 ^ (k - 52)) (h1 : q / 2 ^ (k - 52) < n + 1) :
    roundDouble q =
      ((if 2 * (q / 2 ^ (k - 52) - n) < 1 then n
        else if 2 * (q / 2 ^ (k - 52) - n) > 1 then n + 1
        else if n % 2 = 0 then n else n + 1 : ℤ) : ℚ) * 2 ^ (k - 52) := by
  have hq : 0 < q := lt_of_lt_of_le (zpow_pos (by norm_num) k) hlo
  have hlog : Int.log 2 |q| = k := by
    rw [abs_of_pos hq]
    exact log_eq_of_bounds q k hlo hhi
  simp only [roundDouble, if_neg (ne_of_gt hq), hlog]
  rw [roundHalfEven_of_floor _ n h0 h1]

/-- The relative error of one rounding is at most `2 ^ (-53)`. -/
theorem abs_roundDouble_sub_le (q : ℚ) (hq : 0 < q) :
    |roundDouble q - q| ≤ q * 2 ^ (-53 : ℤ) := by
  have hpow : (0 : ℚ) < 2 ^ (Int.log 2 |q| - 52) := zpow_pos (by norm_num) _
  have hle : (2 : ℚ) ^ (Int.log 2 |q|) ≤ q := by
    have := Int.zpow_log_le_self (b := 2) (r := q) (by norm_num) hq
    rw [abs_of_pos hq]
    exact_mod_cast this
  have herr := abs_roundHalfEven_sub_le (q / 2 ^ (Int.log 2 |q| - 52))
  have hsplit : roundDouble q - q =
      ((roundHalfEven (q / 2 ^ (Int.log 2 |q| - 52)) : ℚ) - q / 2 ^ (Int.log 2 |q| - 52)) *
        2 ^ (Int.log 2 |q| - 52) := by
    simp only [roundDouble, if_neg (ne_of_gt hq)]
    field_simp
  rw [hsplit, abs_mul, abs_of_pos hpow]
  have h2 : (2 : ℚ) ^ (Int.log 2 |q| - 52) = 2 ^ (Int.log 2 |q|) * 2 ^ (-52 : ℤ) := by
    rw [← zpow_add₀ (by norm_num)]; rfl
  calc |(roundHalfEven (q / 2 ^ (Int.log 2 |q| - 52)) : ℚ) - q / 2 ^ (Int.log 2 |q| - 52)| *
        2 ^ (Int.log 2 |q| - 52)
      ≤ 1 / 2 * 2 ^ (Int.log 2 |q| - 52) := mul_le_mul_of_nonneg_right herr hpow.le
    _ = 2 ^ (Int.log 2 |q|) * 2 ^ (-53 : ℤ) := by
        rw [h2]
        have : (2 : ℚ) ^ (-52 : ℤ) = 2 * 2 ^ (-53 : ℤ) := by norm_num
        rw [this]; ring
    _ ≤ q * 2 ^ (-53 : ℤ) := mul_le_mul_of_nonneg_right hle (by positivity)

theorem roundDouble_bounds (q : ℚ) (hq : 0 < q) :
    q * (1 - 2 ^ (-53 : ℤ)) ≤ roundDouble q ∧ roundDouble q ≤ q * (1 + 2 ^ (-53 : ℤ)) := by
  have h := abs_le.mp (abs_roundDouble_sub_le q hq)
  constructor <;> linarith [h.1, h.2]

/-! ### The doubles that occur in the scenarios -/

theorem roundDouble_one : roundDouble 1 = 1 := by
  rw [roundDouble_eval 1 0 4503599627370496 (by norm_num) (by norm_num) (by norm_num)
    (by norm_num)]
  norm_num

theorem roundDouble_three_halves :
    roundDouble (1 * 1.5) = 3 / 2 := by
  rw [roundDouble_eval (1 * 1.5) 0 6755399441055744
    (by norm_num) (by norm_num) (by norm_num) (by norm_num)]
  norm_num

theorem roundDouble_nine_fourths :
    roundDouble (1.5 * 1.5) = 9 / 4 := by
  rw [roundDouble_eval (1.5 * 1.5) 1 5066549580791808
    (by norm_num) (by norm_num) (by norm_num) (by norm_num)]
  norm_num

theorem roundDouble_twenty_seven_eighths :
    roundDouble (2.25 * 1.5) = 27 / 8 := by
  rw [roundDouble_eval (2.25 * 1.5) 1 7599824371187712
    (by norm_num) (by norm_num) (by norm_num) (by norm_num)]
  norm_num

theorem roundDouble_point_seven :
    roundDouble (0.7) = 3152519739159347 / 4503599627370496 := by
  rw [roundDouble_eval (0.7) (-1) 6305039478318694
    (by norm_num) (by norm_num) (by norm_num) (by norm_num)]
  norm_num

theorem roundDouble_point_seven_step_one :
    roundDouble (3152519739159347 / 4503599627370496 * 1.5) =
      1182194902184755 / 1125899906842624 := by
  rw [roundDouble_eval (3152519739159347 / 4503599627370496 * 1.5) 0 4728779608739020
    (by norm_num) (by norm_num) (by norm_num) (by norm_num)]
  norm_num

theorem roundDouble_point_seven_step_two :
    roundDouble (1182194902184755 / 1125899906842624 * 1.5) =
      3546584706554265 / 2251799813685248 := by
  rw [roundDouble_eval (1182194902184755 / 1125899906842624 * 1.5) 0 7093169413108530
    (by norm_num) (by norm_num) (by norm_num) (by norm_num)]
  norm_num

theorem roundDouble_point_seven_closed_form :
    roundDouble (3152519739159347 / 4503599627370496 * (9 / 4)) =
      7093169413108531 / 4503599627370496 := by
  rw [roundDouble_eval (3152519739159347 / 4503599627370496 * (9 / 4)) 0 7093169413108530
    (by norm_num) (by norm_num) (by norm_num) (by norm_num)]
  norm_num

theorem roundDouble_five_step_one :
    roundDouble (5 / 1.5) = 7505999378950827 / 2251799813685248 := by
  rw [roundDouble_eval (5 / 1.5) 1 7505999378950826
    (by norm_num) (by norm_num) (by norm_num) (by norm_num)]
  norm_num

theorem roundDouble_five_step_two :
    roundDouble (7505999378950827 / 2251799813685248 / 1.5) =
      2501999792983609 / 1125899906842624 := by
  rw [roundDouble_eval (7505999378950827 / 2251799813685248 / 1.5) 1 5003999585967218
    (by norm_num) (by norm_num) (by norm_num) (by norm_num)]
  norm_num

theorem roundDouble_five_step_three :
    roundDouble (2501999792983609 / 1125899906842624 / 1.5) =
      6671999447956291 / 4503599627370496 := by
  rw [roundDouble_eval (2501999792983609 / 1125899906842624 / 1.5) 0 6671999447956290
    (by norm_num) (by norm_num) (by norm_num) (by norm_num)]
  norm_num

theorem roundDouble_five_closed_form :
    roundDouble (5 / (27 / 8)) = 3335999723978145 / 2251799813685248 := by
  rw [roundDouble_eval (5 / (27 / 8)) 0 6671999447956290
    (by norm_num) (by norm_num) (by norm_num) (by norm_num)]
  norm_num

theorem roundDouble_one_point_two :
    roundDouble (1.2) = 5404319552844595 / 4503599627370496 := by
  rw [roundDouble_eval (1.2) 0 5404319552844595
    (by norm_num) (by norm_num) (by norm_num) (by norm_num)]
  norm_num

theorem roundDouble_one_point_two_step :
    roundDouble (5404319552844595 / 4503599627370496 / 1.5) =
      7205759403792793 / 9007199254740992 := by
  rw [roundDouble_eval (5404319552844595 / 4503599627370496 / 1.5) (-1) 7205759403792793
    (by norm_num) (by norm_num) (by norm_num) (by norm_num)]
  norm_num

theorem roundDouble_point_eight :
    roundDouble (0.8) = 3602879701896397 / 4503599627370496 := by
  rw [roundDouble_eval (0.8) (-1) 7205759403792793
    (by norm_num) (by norm_num) (by norm_num) (by norm_num)]
  norm_num

/-! ## Zoom-in steps in double precision -/

theorem handleZoomIn_iterate_eq (s : ViewerState ℚ) (n : Nat) :
    (Binary64.handleZoomIn^[n] s).zoomLevel = zoomInUpdater^[n] s.zoomLevel := by
  induction n with
  | zero => rfl
  | succ k ih =>
    rw [Function.iterate_succ_apply', Function.iterate_succ_apply', ← ih]
    rfl

/-- Every zoom-in step multiplies by 1.5 with a relative rounding error of at most
`2 ^ (-53)` before the level is capped at 5. -/
theorem zoomInUpdater_iterate_bounds (z : ℚ) (n : Nat) (hz : 0 < z) (hhi : z ≤ 5) :
    min (z * 1.5 ^ n * (1 - 2 ^ (-53 : ℤ)) ^ n) 5 ≤ zoomInUpdater^[n] z ∧
    zoomInUpdater^[n] z ≤ min (z * 1.5 ^ n * (1 + 2 ^ (-53 : ℤ)) ^ n) 5 := by
  have hu0 : (0 : ℚ) < 1 - 2 ^ (-53 : ℤ) := by norm_num
  have hu1 : (0 : ℚ) < 1 + 2 ^ (-53 : ℤ) := by norm_num
  induction n with
  | zero =>
    simp only [pow_zero, mul_one, Function.iterate_zero, id_eq]
    exact ⟨min_le_left _ _, le_min le_rfl hhi⟩
  | succ k ih =>
    obtain ⟨ihlo, ihhi⟩ := ih
    rw [Function.iterate_succ_apply']
    have hA : z * 1.5 ^ (k + 1) * (1 - 2 ^ (-53 : ℤ)) ^ (k + 1) =
        z * 1.5 ^ k * (1 - 2 ^ (-53 : ℤ)) ^ k * 1.5 * (1 - 2 ^ (-53 : ℤ)) := by
      rw [pow_succ, pow_succ]; ring
    have hB : z * 1.5 ^ (k + 1) * (1 + 2 ^ (-53 : ℤ)) ^ (k + 1) =
        z * 1.5 ^ k * (1 + 2 ^ (-53 : ℤ)) ^ k * 1.5 * (1 + 2 ^ (-53 : ℤ)) := by
      rw [pow_succ, pow_succ]; ring
    have hApos : 0 < z * 1.5 ^ k * (1 - 2 ^ (-53 : ℤ)) ^ k := by positivity
    have hypos : 0 < zoomInUpdater^[k] z :=
      lt_of_lt_of_le (lt_min hApos (by norm_num)) ihlo
    obtain ⟨rlo, rhi⟩ := roundDouble_bounds (zoomInUpdater^[k] z * 1.5) (by positivity)
    rw [hA, hB]
    show min _ 5 ≤ min (roundDouble (zoomInUpdater^[k] z * 1.5)) 5 ∧
      min (roundDouble (zoomInUpdater^[k] z * 1.5)) 5 ≤ min _ 5
    constructor
    · refine le_min ?_ (min_le_right _ _)
      rcases le_total (z * 1.5 ^ k * (1 - 2 ^ (-53 : ℤ)) ^ k) 5 with h | h
      · rw [min_eq_left h] at ihlo
        have h1 : z * 1.5 ^ k * (1 - 2 ^ (-53 : ℤ)) ^ k * 1.5 * (1 - 2 ^ (-53 : ℤ)) ≤
            zoomInUpdater^[k] z * 1.5 * (1 - 2 ^ (-53 : ℤ)) :=
          mul_le_mul_of_nonneg_right
            (mul_le_mul_of_nonneg_right ihlo (by norm_num)) hu0.le
        exact le_trans (min_le_left _ _) (le_trans h1 rlo)
      · rw [min_eq_right h] at ihlo
        have h1 : (5 : ℚ) * 1.5 * (1 - 2 ^ (-53 : ℤ)) ≤
            zoomInUpdater^[k] z * 1.5 * (1 - 2 ^ (-53 : ℤ)) :=
          mul_le_mul_of_nonneg_right
            (mul_le_mul_of_nonneg_right ihlo (by norm_num)) hu0.le
        have h2 : (5 : ℚ) ≤ 5 * 1.5 * (1 - 2 ^ (-53 : ℤ)) := by norm_num
        exact le_trans (min_le_right _ _) (le_trans h2 (le_trans h1 rlo))
    · refine le_min ?_ (min_le_right _ _)
      rcases le_total (z * 1.5 ^ k * (1 + 2 ^ (-53 : ℤ)) ^ k) 5 with h | h
      · rw [min_eq_left h] at ihhi
        have h1 : zoomInUpdater^[k] z * 1.5 * (1 + 2 ^ (-53 : ℤ)) ≤
            z * 1.5 ^ k * (1 + 2 ^ (-53 : ℤ)) ^ k * 1.5 * (1 + 2 ^ (-53 : ℤ)) :=
          mul_le_mul_of_nonneg_right
            (mul_le_mul_of_nonneg_right ihhi (by norm_num)) hu1.le
        exact le_trans (min_le_left _ _) (le_trans rhi h1)
      · have h1 : (5 : ℚ) * 1.5 * (1 + 2 ^ (-53 : ℤ)) ≤
            z * 1.5 ^ k * (1 + 2 ^ (-53 : ℤ)) ^ k * 1.5 * (1 + 2 ^ (-53 : ℤ)) :=
          mul_le_mul_of_nonneg_right
            (mul_le_mul_of_nonneg_right h (by norm_num)) hu1.le
        have h2 : (5 : ℚ) ≤ 5 * 1.5 * (1 + 2 ^ (-53 : ℤ)) := by norm_num
        exact le_trans (min_le_right _ _) (le_trans h2 h1)

theorem zoomInUpdater_three_from_one : zoomInUpdater^[3] 1 = 3.375 := by
  have h1 : zoomInUpdater 1 = 1.5 := by
    rw [zoomInUpdater, roundDouble_three_halves]; norm_num
  have h2 : zoomInUpdater 1.5 = 2.25 := by
    rw [zoomInUpdater, roundDouble_nine_fourths]; norm_num
  have h3 : zoomInUpdater 2.25 = 3.375 := by
    rw [zoomInUpdater, roundDouble_twenty_seven_eighths]; norm_num
  simp only [Function.iterate_succ, Function.iterate_zero, Function.comp_apply, id_eq,
    h1, h2, h3]

/-- C9, as stated, fails. The level 0.7 (the double nearest to 0.7, reached by a pinch
from distance 100 to distance 70) lies between 0.5 and 5, and two `handleZoomIn`
calls store 1.5749999999999997, which is neither `min (z * 1.5 ^ 2) 5` nor that
expression evaluated in doubles (1.575). -/
theorem zoomIn_twice_not_closed_form :
    (0.5 : ℚ) ≤ roundDouble 0.7 ∧ roundDouble 0.7 ≤ 5 ∧
    (Binary64.handleZoomIn^[2] ({ (initialState : ViewerState ℚ) with
        isOpen := true, zoomLevel := roundDouble 0.7 })).zoomLevel =
      3546584706554265 / 2251799813685248 ∧
    (Binary64.handleZoomIn^[2] ({ (initialState : ViewerState ℚ) with
        isOpen := true, zoomLevel := roundDouble 0.7 })).zoomLevel ≠
      min (roundDouble 0.7 * 1.5 ^ 2) 5 ∧
    (Binary64.handleZoomIn^[2] ({ (initialState : ViewerState ℚ) with
        isOpen := true, zoomLevel := roundDouble 0.7 })).zoomLevel ≠
      min (roundDouble (roundDouble 0.7 * (9 / 4))) 5 := by
  have hval : (Binary64.handleZoomIn^[2] ({ (initialState : ViewerState ℚ) with
        isOpen := true, zoomLevel := roundDouble 0.7 })).zoomLevel =
      3546584706554265 / 2251799813685248 := by
    have h1 : zoomInUpdater (roundDouble 0.7) = 1182194902184755 / 1125899906842624 := by
      rw [zoomInUpdater, roundDouble_point_seven, roundDouble_point_seven_step_one]
      norm_num
    have h2 : zoomInUpdater (1182194902184755 / 1125899906842624) =
        3546584706554265 / 2251799813685248 := by
      rw [zoomInUpdater, roundDouble_point_seven_step_two]
      norm_num
    rw [handleZoomIn_iterate_eq]
    simp only [Function.iterate_succ, Function.iterate_zero, Function.comp_apply, id_eq,
      h1, h2]
  refine ⟨?_, ?_, hval, ?_, ?_⟩
  · rw [roundDouble_point_seven]; norm_num
  · rw [roundDouble_point_seven]; norm_num
  · rw [hval, roundDouble_point_seven]; norm_num
  · rw [hval, roundDouble_point_seven, roundDouble_point_seven_closed_form]; norm_num

/-- C9, amended. From a zoom level `z` between 0.5 and 5, `n` calls of `handleZoomIn`
give `min (z * 1.5 ^ n) 5` up to the rounding of each product to a double: the
level lies between `min (z * 1.5 ^ n * (1 - 2 ^ (-53)) ^ n) 5` and
`min (z * 1.5 ^ n * (1 + 2 ^ (-53)) ^ n) 5`; three calls from level 1 give
exactly 3.375. -/
theorem zoomIn_rounded (s : ViewerState ℚ) (n : Nat)
    (hlo : 0.5 ≤ s.zoomLevel) (hhi : s.zoomLevel ≤ 5) :
    min (s.zoomLevel * 1.5 ^ n * (1 - 2 ^ (-53 : ℤ)) ^ n) 5 ≤
      (Binary64.handleZoomIn^[n] s).zoomLevel ∧
    (Binary64.handleZoomIn^[n] s).zoomLevel ≤
      min (s.zoomLevel * 1.5 ^ n * (1 + 2 ^ (-53 : ℤ)) ^ n) 5 ∧
    (s.zoomLevel = 1 → (Binary64.handleZoomIn^[3] s).zoomLevel = 3.375) := by
  have hz : 0 < s.zoomLevel := lt_of_lt_of_le (by norm_num) hlo
  have hb := zoomInUpdater_iterate_bounds s.zoomLevel n hz hhi
  rw [handleZoomIn_iterate_eq, handleZoomIn_iterate_eq]
  refine ⟨hb.1, hb.2, fun h1 => ?_⟩
  rw [h1]
  exact zoomInUpdater_three_from_one

theorem zoomIn_rounded_witness :
    (0.5 : ℚ) ≤ (initialState : ViewerState ℚ).zoomLevel ∧
    (initialState : ViewerState ℚ).zoomLevel ≤ 5 ∧
    (Binary64.handleZoomIn^[3] (initialState : ViewerState ℚ)).zoomLevel = 3.375 :=
  ⟨by norm_num [initialState], by norm_num [initialState],
   (zoomIn_rounded initialState 3 (by norm_num [initialState])
      (by norm_num [initialState])).2.2 rfl⟩

/-! ## Zoom-out steps in double precision -/

theorem zoomOutCalls_zoomLevel (renders : List (ViewerState ℚ)) (s : ViewerState ℚ) :
    (zoomOutCalls renders s).zoomLevel = zoomOutUpdater^[renders.length] s.zoomLevel := by
  induction renders generalizing s with
  | nil => rfl
  | cons r rest ih =>
    have hstep : zoomOutCalls (r :: rest) s =
        zoomOutCalls rest (Binary64.handleZoomOut r s) := rfl
    rw [hstep, ih, List.length_cons, Function.iterate_succ_apply]
    rfl

/-- Every zoom-out step divides by 1.5 with a relative rounding error of at most
`2 ^ (-53)` before the level is raised to 0.5. -/
theorem zoomOutUpdater_iterate_bounds (z : ℚ) (n : Nat) (hlo : 0.5 ≤ z) :
    max (z / 1.5 ^ n * (1 - 2 ^ (-53 : ℤ)) ^ n) 0.5 ≤ zoomOutUpdater^[n] z ∧
    zoomOutUpdater^[n] z ≤ max (z / 1.5 ^ n * (1 + 2 ^ (-53 : ℤ)) ^ n) 0.5 := by
  have hu0 : (0 : ℚ) < 1 - 2 ^ (-53 : ℤ) := by norm_num
  have hu1 : (0 : ℚ) < 1 + 2 ^ (-53 : ℤ) := by norm_num
  induction n with
  | zero =>
    simp only [pow_zero, div_one, mul_one, Function.iterate_zero, id_eq]
    exact ⟨max_le le_rfl hlo, le_max_left _ _⟩
  | succ k ih =>
    obtain ⟨ihlo, ihhi⟩ := ih
    rw [Function.iterate_succ_apply']
    have hA : z / 1.5 ^ (k + 1) * (1 - 2 ^ (-53 : ℤ)) ^ (k + 1) =
        z / 1.5 ^ k * (1 - 2 ^ (-53 : ℤ)) ^ k / 1.5 * (1 - 2 ^ (-53 : ℤ)) := by
      rw [pow_succ, pow_succ]; field_simp; ring
    have hB : z / 1.5 ^ (k + 1) * (1 + 2 ^ (-53 : ℤ)) ^ (k + 1) =
        z / 1.5 ^ k * (1 + 2 ^ (-53 : ℤ)) ^ k / 1.5 * (1 + 2 ^ (-53 : ℤ)) := by
      rw [pow_succ, pow_succ]; field_simp; ring
    have hypos : 0 < zoomOutUpdater^[k] z :=
      lt_of_lt_of_le (by norm_num) (le_trans (le_max_right _ _) ihlo)
    obtain ⟨rlo, rhi⟩ := roundDouble_bounds (zoomOutUpdater^[k] z / 1.5) (by positivity)
    rw [hA, hB]
    show max _ 0.5 ≤ max (roundDouble (zoomOutUpdater^[k] z / 1.5)) 0.5 ∧
      max (roundDouble (zoomOutUpdater^[k] z / 1.5)) 0.5 ≤ max _ 0.5
    constructor
    · refine max_le ?_ (le_max_right _ _)
      have h0 := le_trans (le_max_left _ _) ihlo
      have h1 : z / 1.5 ^ k * (1 - 2 ^ (-53 : ℤ)) ^ k / 1.5 * (1 - 2 ^ (-53 : ℤ)) ≤
          zoomOutUpdater^[k] z / 1.5 * (1 - 2 ^ (-53 : ℤ)) :=
        mul_le_mul_of_nonneg_right
          (div_le_div_of_nonneg_right h0 (by norm_num)) hu0.le
      exact le_trans (le_trans h1 rlo) (le_max_left _ _)
    · refine max_le ?_ (le_max_right _ _)
      rcases le_total (0.5 : ℚ) (z / 1.5 ^ k * (1 + 2 ^ (-53 : ℤ)) ^ k) with h | h
      · rw [max_eq_left h] at ihhi
        have h1 : zoomOutUpdater^[k] z / 1.5 * (1 + 2 ^ (-53 : ℤ)) ≤
            z / 1.5 ^ k * (1 + 2 ^ (-53 : ℤ)) ^ k / 1.5 * (1 + 2 ^ (-53 : ℤ)) :=
          mul_le_mul_of_nonneg_right
            (div_le_div_of_nonneg_right ihhi (by norm_num)) hu1.le
        exact le_trans (le_trans rhi h1) (le_max_left _ _)
      · rw [max_eq_right h] at ihhi
        have h1 : zoomOutUpdater^[k] z / 1.5 * (1 + 2 ^ (-53 : ℤ)) ≤
            (0.5 : ℚ) / 1.5 * (1 + 2 ^ (-53 : ℤ)) :=
          mul_le_mul_of_nonneg_right
            (div_le_div_of_nonneg_right ihhi (by norm_num)) hu1.le
        have h2 : (0.5 : ℚ) / 1.5 * (1 + 2 ^ (-53 : ℤ)) ≤ 0.5 := by norm_num
        exact le_trans (le_trans rhi (le_trans h1 h2)) (le_max_right _ _)

theorem zoomOutUpdater_half : zoomOutUpdater 0.5 = 0.5 := by
  have h := (zoomOutUpdater_iterate_bounds 0.5 1 le_rfl).2
  have h2 : (0.5 : ℚ) / 1.5 ^ 1 * (1 + 2 ^ (-53 : ℤ)) ^ 1 ≤ 0.5 := by norm_num
  rw [max_eq_right h2] at h
  exact le_antisymm h (le_max_right _ _)

theorem zoomOutUpdater_iterate_half (n : Nat) : zoomOutUpdater^[n] 0.5 = 0.5 :=
  Function.iterate_fixed zoomOutUpdater_half n

theorem zoomOutUpdater_iterate_from_three (n : Nat) (h5 : 5 ≤ n) :
    zoomOutUpdater^[n] 3 = 0.5 := by
  have h := zoomOutUpdater_iterate_bounds 3 5 (by norm_num)
  have h2 : (3 : ℚ) / 1.5 ^ 5 * (1 + 2 ^ (-53 : ℤ)) ^ 5 ≤ 0.5 := by norm_num
  have hfive : zoomOutUpdater^[5] 3 = 0.5 := by
    have hup := h.2
    rw [max_eq_right h2] at hup
    exact le_antisymm hup (le_trans (le_max_right _ _) h.1)
  obtain ⟨m, rfl⟩ := Nat.exists_eq_add_of_le h5
  rw [Nat.add_comm, Function.iterate_add_apply, hfive]
  exact zoomOutUpdater_iterate_half m

theorem handleZoomOut_iterate_eq (s : ViewerState ℚ) (n : Nat) :
    ((fun p => Binary64.handleZoomOut p p)^[n] s).zoomLevel = zoomOutUpdater^[n] s.zoomLevel := by
  induction n with
  | zero => rfl
  | succ k ih =>
    rw [Function.iterate_succ_apply', Function.iterate_succ_apply', ← ih]
    rfl

/-- C10, as stated, fails. From level 5 (four zoom-in clicks), three `handleZoomOut`
calls, a render after each, store 1.4814814814814816, which is neither
`max (5 / 1.5 ^ 3) 0.5` nor that expression evaluated in doubles
(1.4814814814814814). -/
theorem zoomOut_thrice_not_closed_form :
    ((fun p => Binary64.handleZoomOut p p)^[3]
      ({ (initialState : ViewerState ℚ) with isOpen := true, zoomLevel := 5 })).zoomLevel =
      6671999447956291 / 4503599627370496 ∧
    ((fun p => Binary64.handleZoomOut p p)^[3]
      ({ (initialState : ViewerState ℚ) with isOpen := true, zoomLevel := 5 })).zoomLevel ≠
      max (5 / 1.5 ^ 3) 0.5 ∧
    ((fun p => Binary64.handleZoomOut p p)^[3]
      ({ (initialState : ViewerState ℚ) with isOpen := true, zoomLevel := 5 })).zoomLevel ≠
      max (roundDouble (5 / (27 / 8))) 0.5 := by
  have h1 : zoomOutUpdater 5 = 7505999378950827 / 2251799813685248 := by
    rw [zoomOutUpdater, roundDouble_five_step_one]
    norm_num
  have h2 : zoomOutUpdater (7505999378950827 / 2251799813685248) =
      2501999792983609 / 1125899906842624 := by
    rw [zoomOutUpdater, roundDouble_five_step_two]
    norm_num
  have h3 : zoomOutUpdater (2501999792983609 / 1125899906842624) =
      6671999447956291 / 4503599627370496 := by
    rw [zoomOutUpdater, roundDouble_five_step_three]
    norm_num
  have hval : ((fun p => Binary64.handleZoomOut p p)^[3]
      ({ (initialState : ViewerState ℚ) with isOpen := true, zoomLevel := 5 })).zoomLevel =
      6671999447956291 / 4503599627370496 := by
    rw [handleZoomOut_iterate_eq]
    simp only [Function.iterate_succ, Function.iterate_zero, Function.comp_apply, id_eq,
      h1, h2, h3]
  refine ⟨hval, ?_, ?_⟩
  · rw [hval]; norm_num
  · rw [hval, roundDouble_five_closed_form]; norm_num

/-- C10, amended. From a zoom level `z` between 0.5 and 5, `n` calls of
`handleZoomOut` (made in any renders: a render after each call, or several calls
in one render) give `max (z / 1.5 ^ n) 0.5` up to the rounding of each quotient to
a double: the level lies between `max (z / 1.5 ^ n * (1 - 2 ^ (-53)) ^ n) 0.5` and
`max (z / 1.5 ^ n * (1 + 2 ^ (-53)) ^ n) 0.5`, so it is never below 0.5; level
0.5 is kept; from level 3 the level is exactly 0.5 after 5 calls and after every
further call. -/
theorem zoomOut_rounded (renders : List (ViewerState ℚ)) (s : ViewerState ℚ)
    (hlo : 0.5 ≤ s.zoomLevel) (_hhi : s.zoomLevel ≤ 5) :
    max (s.zoomLevel / 1.5 ^ renders.length * (1 - 2 ^ (-53 : ℤ)) ^ renders.length) 0.5 ≤
      (zoomOutCalls renders s).zoomLevel ∧
    (zoomOutCalls renders s).zoomLevel ≤
      max (s.zoomLevel / 1.5 ^ renders.length * (1 + 2 ^ (-53 : ℤ)) ^ renders.length) 0.5 ∧
    0.5 ≤ (zoomOutCalls renders s).zoomLevel ∧
    (s.zoomLevel = 0.5 → (zoomOutCalls renders s).zoomLevel = 0.5) ∧
    (s.zoomLevel = 3 → 5 ≤ renders.length → (zoomOutCalls renders s).zoomLevel = 0.5) := by
  have hb := zoomOutUpdater_iterate_bounds s.zoomLevel renders.length hlo
  rw [zoomOutCalls_zoomLevel]
  refine ⟨hb.1, hb.2, le_trans (le_max_right _ _) hb.1, fun h => ?_, fun h3 h5 => ?_⟩
  · rw [h]
    exact zoomOutUpdater_iterate_half _
  · rw [h3]
    exact zoomOutUpdater_iterate_from_three _ h5

theorem zoomOut_rounded_witness :
    (0.5 : ℚ) ≤ ({ (initialState : ViewerState ℚ) with isOpen := true, zoomLevel := 3 }).zoomLevel ∧
    ({ (initialState : ViewerState ℚ) with isOpen := true, zoomLevel := 3 }).zoomLevel ≤ 5 ∧
    (zoomOutCalls
      [({ (initialState : ViewerState ℚ) with isOpen := true, zoomLevel := 3 }),
       ({ (initialState : ViewerState ℚ) with isOpen := true, zoomLevel := 3 }),
       ({ (initialState : ViewerState ℚ) with isOpen := true, zoomLevel := 3 }),
       ({ (initialState : ViewerState ℚ) with isOpen := true, zoomLevel := 3 }),
       ({ (initialState : ViewerState ℚ) with isOpen := true, zoomLevel := 3 })]
      ({ (initialState : ViewerState ℚ) with isOpen := true, zoomLevel := 3 })).zoomLevel = 0.5 :=
  ⟨by norm_num, by norm_num,
   (zoomOut_rounded
      [({ (initialState : ViewerState ℚ) with isOpen := true, zoomLevel := 3 }),
       ({ (initialState : ViewerState ℚ) with isOpen := true, zoomLevel := 3 }),
       ({ (initialState : ViewerState ℚ) with isOpen := true, zoomLevel := 3 }),
       ({ (initialState : ViewerState ℚ) with isOpen := true, zoomLevel := 3 }),
       ({ (initialState : ViewerState ℚ) with isOpen := true, zoomLevel := 3 })]
      ({ (initialState : ViewerState ℚ) with isOpen := true, zoomLevel := 3 })
      (by norm_num) (by norm_num)).2.2.2.2 rfl (by decide)⟩

/-! ## One zoom-out call -/

/-- C14, as stated, fails. From level 1.2 (the double nearest to 1.2) with pan offset
(10,-4), `handleZoomOut` stores 0.7999999999999999, which is neither 0.8 nor the
double nearest to 0.8.  And when two zoom-out calls are made in one render of
level 1.5 with pan offset (10,0), the second call finds the queued level 1, which
is at most 1, and still keeps the offset, because its test reads the 1.5 of the
render. -/
theorem zoomOut_example_not_point_eight :
    (Binary64.handleZoomOut
      ({ (initialState : ViewerState ℚ) with
        isOpen := true, zoomLevel := roundDouble 1.2, panOffset := ⟨10, -4⟩ })
      ({ (initialState : ViewerState ℚ) with
        isOpen := true, zoomLevel := roundDouble 1.2, panOffset := ⟨10, -4⟩ })).zoomLevel =
      7205759403792793 / 9007199254740992 ∧
    (Binary64.handleZoomOut
      ({ (initialState : ViewerState ℚ) with
        isOpen := true, zoomLevel := roundDouble 1.2, panOffset := ⟨10, -4⟩ })
      ({ (initialState : ViewerState ℚ) with
        isOpen := true, zoomLevel := roundDouble 1.2, panOffset := ⟨10, -4⟩ })).zoomLevel ≠ 0.8 ∧
    (Binary64.handleZoomOut
      ({ (initialState : ViewerState ℚ) with
        isOpen := true, zoomLevel := roundDouble 1.2, panOffset := ⟨10, -4⟩ })
      ({ (initialState : ViewerState ℚ) with
        isOpen := true, zoomLevel := roundDouble 1.2, panOffset := ⟨10, -4⟩ })).zoomLevel ≠ roundDouble 0.8 ∧
    (Binary64.handleZoomOut
      ({ (initialState : ViewerState ℚ) with
        isOpen := true, zoomLevel := 1.5, panOffset := ⟨10, 0⟩ })
      ({ (initialState : ViewerState ℚ) with
        isOpen := true, zoomLevel := 1.5, panOffset := ⟨10, 0⟩ })).zoomLevel = 1 ∧
    (Binary64.handleZoomOut
      ({ (initialState : ViewerState ℚ) with
        isOpen := true, zoomLevel := 1.5, panOffset := ⟨10, 0⟩ })
      (Binary64.handleZoomOut
        ({ (initialState : ViewerState ℚ) with
        isOpen := true, zoomLevel := 1.5, panOffset := ⟨10, 0⟩ })
        ({ (initialState : ViewerState ℚ) with
        isOpen := true, zoomLevel := 1.5, panOffset := ⟨10, 0⟩ }))).panOffset = ⟨10, 0⟩ := by
  have hval : zoomOutUpdater (roundDouble 1.2) = 7205759403792793 / 9007199254740992 := by
    rw [zoomOutUpdater, roundDouble_one_point_two, roundDouble_one_point_two_step]
    norm_num
  have hone : zoomOutUpdater 1.5 = 1 := by
    have e : (1.5 : ℚ) / 1.5 = 1 := by norm_num
    rw [zoomOutUpdater, e, roundDouble_one]
    norm_num
  refine ⟨hval, ?_, ?_, hone, ?_⟩
  · show zoomOutUpdater (roundDouble 1.2) ≠ 0.8
    rw [hval]; norm_num
  · show zoomOutUpdater (roundDouble 1.2) ≠ roundDouble 0.8
    rw [hval, roundDouble_point_eight]; norm_num
  · show (if (1.5 : ℚ) ≤ 1 then (⟨0, 0⟩ : Point ℚ)
        else if (1.5 : ℚ) ≤ 1 then ⟨0, 0⟩ else ⟨10, 0⟩) = ⟨10, 0⟩
    norm_num

/-- C14, amended. `handleZoomOut` sets `zoomLevel` to `max (z / 1.5) 0.5`, where `z` is
the queued level and the quotient is rounded to a double, and decides the pan
reset from the level of the render in which the handler was created (the same
`z` when a render has followed the previous event): `panOffset` becomes (0,0)
when that level is at most 1 and stays as it was when it exceeds 1, whatever the
new level is; from level 1.2 the new level is 0.7999999999999999, below 0.8, and
the offset is kept. -/
theorem handleZoomOut_queued (render pending : ViewerState ℚ) :
    (Binary64.handleZoomOut render pending).zoomLevel =
      max (roundDouble (pending.zoomLevel / 1.5)) 0.5 ∧
    (render.zoomLevel ≤ 1 → (Binary64.handleZoomOut render pending).panOffset = ⟨0, 0⟩) ∧
    (1 < render.zoomLevel →
      (Binary64.handleZoomOut render pending).panOffset = pending.panOffset) ∧
    (render.zoomLevel = roundDouble 1.2 → pending.zoomLevel = roundDouble 1.2 →
      (Binary64.handleZoomOut render pending).zoomLevel = 7205759403792793 / 9007199254740992 ∧
      (Binary64.handleZoomOut render pending).zoomLevel < 0.8 ∧
      (Binary64.handleZoomOut render pending).panOffset = pending.panOffset) := by
  have hpan : (Binary64.handleZoomOut render pending).panOffset =
      if render.zoomLevel ≤ 1 then ⟨0, 0⟩ else pending.panOffset := rfl
  have hkeep : 1 < render.zoomLevel →
      (Binary64.handleZoomOut render pending).panOffset = pending.panOffset :=
    fun h => by rw [hpan, if_neg (not_le.mpr h)]
  refine ⟨rfl, fun h => by rw [hpan, if_pos h], hkeep, fun hr hp => ?_⟩
  have hval : (Binary64.handleZoomOut render pending).zoomLevel =
      7205759403792793 / 9007199254740992 := by
    show zoomOutUpdater pending.zoomLevel = _
    rw [hp, zoomOutUpdater, roundDouble_one_point_two, roundDouble_one_point_two_step]
    norm_num
  refine ⟨hval, ?_, hkeep ?_⟩
  · rw [hval]; norm_num
  · rw [hr, roundDouble_one_point_two]; norm_num

theorem handleZoomOut_queued_witness :
    ({ (initialState : ViewerState ℚ) with
        isOpen := true, zoomLevel := roundDouble 1.2, panOffset := ⟨10, -4⟩ }).zoomLevel = roundDouble 1.2 ∧
    (Binary64.handleZoomOut
      ({ (initialState : ViewerState ℚ) with
        isOpen := true, zoomLevel := roundDouble 1.2, panOffset := ⟨10, -4⟩ })
      ({ (initialState : ViewerState ℚ) with
        isOpen := true, zoomLevel := roundDouble 1.2, panOffset := ⟨10, -4⟩ })).zoomLevel =
      7205759403792793 / 9007199254740992 ∧
    (Binary64.handleZoomOut
      ({ (initialState : ViewerState ℚ) with
        isOpen := true, zoomLevel := roundDouble 1.2, panOffset := ⟨10, -4⟩ })
      ({ (initialState : ViewerState ℚ) with
        isOpen := true, zoomLevel := roundDouble 1.2, panOffset := ⟨10, -4⟩ })).panOffset = ⟨10, -4⟩ :=
  have h := (handleZoomOut_queued
      ({ (initialState : ViewerState ℚ) with
        isOpen := true, zoomLevel := roundDouble 1.2, panOffset := ⟨10, -4⟩ })
      ({ (initialState : ViewerState ℚ) with
        isOpen := true, zoomLevel := roundDouble 1.2, panOffset := ⟨10, -4⟩ })).2.2.2 rfl rfl
  ⟨rfl, h.1, h.2.2⟩

end Binary64

end Invertify
